import Mathlib

/-!
# The canvas of the gui2 widget library (src/gui/widgets/canvas.cpp)

A shallow embedding of the canvas: the colour decoder, the value-or-formula
reader, the pixel writer and line rasteriser, the four shapes and the canvas
itself with its parse and draw cycle, followed by the properties proved
about them.

Conventions.
* `int` variables are integers (`Int`); signed overflow is undefined in C++,
  so no wraparound is modelled for them.
* `unsigned` and `Uint32` variables are natural numbers below `2^32`; every
  operation that can leave that range is reduced modulo `2^32`.
* The fields of an `SDL_Rect` are 16 bits wide (`Sint16 x, y; Uint16 w, h`);
  a value stored in one is converted to that width.
* A surface is a zero-filled pixel buffer together with the pixel writes made
  to it so far (newest first); a pixel is read by resolving the newest write
  to its byte offset.
* Code that the canvas calls but that lives elsewhere (the formula engine,
  the image cache, the font renderer, the blitter) is collected in
  `platform` and every result holds for every platform.
-/

namespace canvas

/-! ## Machine integers -/

/-- Conversion of an `int` to `unsigned` (reduction modulo `2^32`). -/
def to_unsigned (i : Int) : Nat := (i % 4294967296).toNat

/-- Conversion of an `unsigned` to `int` (two's complement). -/
def to_int (u : Nat) : Int :=
  if u % 4294967296 < 2147483648 then ((u % 4294967296 : Nat) : Int)
  else ((u % 4294967296 : Nat) : Int) - 4294967296

/-! ## Text helpers used by the canvas -/

/-- Modelled from the spec: `utils::split` with its default arguments, whose
definition and default separator are not part of these sources. The spec:
"Splits `text` on whitespace into fields". The fields are the maximal runs of
characters that are not whitespace; `cur` is the field being read. -/
def split_chars : List Char → List Char → List String
  | [], cur => if cur = [] then [] else [String.mk cur]
  | c :: cs, cur =>
    if c.isWhitespace then
      (if cur = [] then split_chars cs [] else String.mk cur :: split_chars cs [])
    else split_chars cs (cur ++ [c])

/-- Modelled from the spec: `utils::split(colour)`, see `split_chars`. -/
def split (val : String) : List String := split_chars val.data []

/-- Modelled from the spec: the digit reader shared by the two
`lexical_cast_default` below. The value of a string of decimal digits, `none`
when a character is not a digit; `acc` is the value read so far. -/
def read_digits : List Char → Nat → Option Nat
  | [], acc => some acc
  | c :: cs, acc =>
    if c.isDigit then read_digits cs (acc * 10 + (c.toNat - 48)) else none

/-- Modelled from the spec: `lexical_cast_default<unsigned>`, not part of these
sources. The spec: "parses `text` as an unsigned integer (default 0 on
failure)". The text must be a non-empty string of decimal digits whose value
fits an `unsigned`. -/
def lexical_cast_default_unsigned (a : String) : Nat :=
  match a.data with
  | [] => 0
  | c :: cs =>
    match read_digits (c :: cs) 0 with
    | some v => if v < 4294967296 then v else 0
    | none => 0

/-- Modelled from the spec: `lexical_cast_default<int>`, not part of these
sources. The spec gives the line coordinates as "int, default 0": an optional
minus sign followed by a non-empty string of decimal digits, the value
fitting an `int`; anything else gives 0. -/
def lexical_cast_default_int (a : String) : Int :=
  match a.data with
  | [] => 0
  | '-' :: c :: cs =>
    match read_digits (c :: cs) 0 with
    | some v => if v ≤ 2147483648 then - (v : Int) else 0
    | none => 0
  | c :: cs =>
    match read_digits (c :: cs) 0 with
    | some v => if v < 2147483648 then (v : Int) else 0
    | none => 0

/-! ## decode_colour and read_possible_formula -/

/-- The vector `fields` after `while(fields.size() < 4) fields.push_back("0")`;
the fuel is the number of fields that may be missing. -/
def pad_fields : Nat → List String → List String
  | 0, fields => fields
  | n + 1, fields =>
    if fields.length < 4 then pad_fields n (fields ++ ["0"]) else fields

/-- The loop body of `decode_colour`, run over the fields `0 .. 3`:
`result = result << 8; result |= lexical_cast_default<int>(fields[i])`. -/
def decode_fields (fields : List String) : Nat → Nat → Nat
  | 0, result => result
  | n + 1, result =>
    let i := 4 - (n + 1)
    let shifted := (result <<< 8) % 4294967296
    decode_fields fields n
      (shifted ||| to_unsigned (lexical_cast_default_int (fields.getD i "")))

/-- Embeds `static Uint32 decode_colour(const std::string& colour)`. -/
def decode_colour (colour : String) : Nat :=
  let fields := pad_fields 4 (split colour)
  decode_fields fields 4 0

/-- Embeds `static void read_possible_formula(const std::string str, unsigned& value,
std::string& formula)`; the result is the pair of `value` and `formula` after
the call. -/
def read_possible_formula (str : String) (value : Nat) (formula : String) :
    Nat × String :=
  if str.data = [] then (value, formula)
  else if str.data.head? = some '(' then (value, str)
  else (lexical_cast_default_unsigned str, formula)

/-! ## Surfaces and the pixel writer -/

/-- One pixel write made by `put_pixel`: the coordinates it was called with,
the byte offset from the start of the pixel buffer it wrote to, and the
value written. -/
structure pixel_write where
  x : Int
  y : Int
  offset : Nat
  colour : Nat
deriving DecidableEq, Repr

/-- An SDL surface of 32-bit pixels: its width and height and the pixel
writes made since it was created (newest first). A new surface is filled
with zeroes. -/
structure surface where
  w : Nat
  h : Nat
  pixels : List pixel_write
deriving DecidableEq, Repr

/-- Embeds `SDL_CreateRGBSurface(SDL_SWSURFACE, w, h, 32, 0xFF0000, 0xFF00, 0xFF,
0xFF000000)`: a zero-filled surface, no pixel written yet. -/
def SDL_CreateRGBSurface (w h : Nat) : surface := ⟨w, h, []⟩

/-- Embeds `SDL_MapRGBA` for the format of the surfaces made by
`SDL_CreateRGBSurface` above, whose masks are red `0xFF0000`, green `0xFF00`,
blue `0xFF` and alpha `0xFF000000`. -/
def SDL_MapRGBA (r g b a : Nat) : Nat :=
  ((r % 256) <<< 16) ||| ((g % 256) <<< 8) ||| (b % 256) ||| ((a % 256) <<< 24)

/-- The byte offset `(y * w * 4) + x * 4` computed by `put_pixel` in
unsigned arithmetic. The `int` coordinates of the callers are converted to
`unsigned` on the call; reducing modulo `2^32` at the end is the same. -/
def pixel_offset (w : Nat) (x y : Int) : Nat :=
  to_unsigned (y * (w : Int) * 4 + x * 4)

/-- Embeds `tcanvas::tshape::put_pixel(start, colour, w, x, y)`, where `start` is the
pixel buffer of `canvas`: stores `colour` at `start + (y * w * 4) + x * 4`. -/
def put_pixel (canvas : surface) (colour : Nat) (w : Nat) (x y : Int) : surface :=
  { canvas with pixels := ⟨x, y, pixel_offset w x y, colour⟩ :: canvas.pixels }

/-- The value of the pixel in column `x` of row `y`: the newest write to its
byte offset, or 0 when it was never written. -/
def get_pixel (canvas : surface) (x y : Int) : Nat :=
  match canvas.pixels.find? (fun p => p.offset = pixel_offset canvas.w x y) with
  | some p => p.colour
  | none => 0

/-! ## draw_line -/

/-- The loop `for(int y = y1; y <= y2; ++y) put_pixel(start, colour, w, x1, y)`;
the first argument is the number of iterations left. -/
def vertical_loop (colour w : Nat) (x1 : Int) : Nat → Int → surface → surface
  | 0, _, canvas => canvas
  | n + 1, y, canvas =>
    vertical_loop colour w x1 n (y + 1) (put_pixel canvas colour w x1 y)

/-- The loop `for(int x = x1; x <= x2; ++x) put_pixel(start, colour, w, x, y1)`;
the first argument is the number of iterations left. -/
def horizontal_loop (colour w : Nat) (y1 : Int) : Nat → Int → surface → surface
  | 0, _, canvas => canvas
  | n + 1, x, canvas =>
    horizontal_loop colour w y1 n (x + 1) (put_pixel canvas colour w x y1)

/-- The Bresenham loop of `draw_line`, with the loop variables `x`, `y` and
`d`; the first argument is the number of iterations left. -/
def bresenham_loop (colour w : Nat) (incE incNE slope : Int) :
    Nat → Int → Int → Int → surface → surface
  | 0, _, _, _, canvas => canvas
  | n + 1, x, y, d, canvas =>
    let canvas := put_pixel canvas colour w x y
    if d ≤ 0 then bresenham_loop colour w incE incNE slope n (x + 1) y (d + incE) canvas
    else bresenham_loop colour w incE incNE slope n (x + 1) (y + slope) (d + incNE) canvas

/-- The conversion of the colour at the head of `draw_line`. -/
def map_colour (colour : Nat) : Nat :=
  SDL_MapRGBA ((colour &&& 0xFF000000) >>> 24) ((colour &&& 0x00FF0000) >>> 16)
    ((colour &&& 0x0000FF00) >>> 8) (colour &&& 0x000000FF)

/-- Embeds `tcanvas::tshape::draw_line(canvas, colour, x1, y1, x2, y2)`. A loop from
`a` up to `b` inclusive runs `b + 1 - a` times, no time when `b < a`. -/
def draw_line (canvas : surface) (colour : Nat) (x1 y1 x2 y2 : Int) : surface :=
  let colour := map_colour colour
  let w := canvas.w
  if x1 = x2 then
    let lo := if y2 < y1 then y2 else y1
    let hi := if y2 < y1 then y1 else y2
    vertical_loop colour w x1 (hi + 1 - lo).toNat lo canvas
  else if y1 = y2 then
    horizontal_loop colour w y1 (x2 + 1 - x1).toNat x1 canvas
  else
    let dx := x2 - x1
    let dy := y2 - y1
    let slope : Int := if dy < 0 then -1 else 1
    let dy := if dy < 0 then -dy else dy
    let incE := 2 * dy
    let incNE := 2 * dy - 2 * dx
    let d := 2 * dy - dx
    bresenham_loop colour w incE incNE slope (x2 + 1 - x1).toNat x1 y1 d canvas

/-! ## Configuration, variables and the code outside the canvas -/

/-- A `vconfig`: the attributes of one configuration child. -/
structure vconfig where
  attributes : List (String × String)
deriving DecidableEq, Repr

/-- The attribute lookup `cfg["key"]`, the empty string when the key is absent. -/
def vconfig.get (cfg : vconfig) (key : String) : String :=
  match cfg.attributes.lookup key with
  | some v => v
  | none => ""

/-- A `config` as the canvas reads it: the children in their original order
(`ordered_begin() .. ordered_end()`), each a tag and its data. -/
structure config where
  children : List (String × vconfig)
deriving DecidableEq, Repr

/-- A `variant`, the value of a formula variable. -/
inductive variant where
  | int (i : Int)
  | string (s : String)
deriving DecidableEq, Repr

/-- Modelled from the spec: `game_logic::map_formula_callable`, not part of
these sources: "a mapping from variable name to a tagged value". -/
abbrev map_formula_callable := List (String × variant)

/-- Modelled from the spec: `map_formula_callable::add`, which binds `key` to
`value` in the mapping. -/
def map_formula_callable.add (vars : map_formula_callable) (key : String)
    (value : variant) : map_formula_callable :=
  (key, value) :: vars.filter (fun kv => kv.1 ≠ key)

/-- Conversion of an unsigned value to `Sint16`, the type of the fields `x`
and `y` of an `SDL_Rect` (reduction modulo `2^16`, two's complement). -/
def to_sint16 (u : Nat) : Int :=
  if u % 65536 < 32768 then ((u % 65536 : Nat) : Int)
  else ((u % 65536 : Nat) : Int) - 65536

/-- Conversion of an unsigned value to `Uint16`, the type of the fields `w`
and `h` of an `SDL_Rect` (reduction modulo `2^16`). -/
def to_uint16 (u : Nat) : Nat := u % 65536

/-- An `SDL_Rect` of SDL 1.2, the library this canvas is written for:
`Sint16 x, y; Uint16 w, h`. -/
structure SDL_Rect where
  x : Int
  y : Int
  w : Nat
  h : Nat
deriving DecidableEq, Repr

/-- Embeds `create_rect(x, y, w, h)`, which fills the fields of an `SDL_Rect`
with its arguments. -/
def create_rect (x y w h : Nat) : SDL_Rect :=
  ⟨to_sint16 x, to_sint16 y, to_uint16 w, to_uint16 h⟩

/-- The code the canvas calls that lives outside it: the formula engine
(`game_logic::formula(f).execute(variables).as_int()`), the image cache
(`image::get_image(image::locator(name))`), the font renderer
(`font::get_rendered_text(text, size, colour, TTF_STYLE_NORMAL)`) and the
blitter (`SDL_BlitSurface(src, srcrect, dst, dstrect)`, giving the new `dst`). -/
structure platform where
  formula_execute : String → map_formula_callable → Int
  get_image : String → surface
  get_rendered_text : String → Nat → Nat × Nat × Nat × Nat → surface
  SDL_BlitSurface : surface → Option SDL_Rect → surface → SDL_Rect → surface

/-! ## The shapes -/

/-- The members of `tcanvas::tline`. -/
structure tline where
  x1_ : Int
  y1_ : Int
  x2_ : Int
  y2_ : Int
  colour_ : Nat
  thickness_ : Nat
deriving DecidableEq, Repr

/-- Embeds `tcanvas::tline::tline(const vconfig& cfg)`. -/
def tline.from_cfg (cfg : vconfig) : tline :=
  { x1_ := lexical_cast_default_int (cfg.get "x1")
    y1_ := lexical_cast_default_int (cfg.get "y1")
    x2_ := lexical_cast_default_int (cfg.get "x2")
    y2_ := lexical_cast_default_int (cfg.get "y2")
    colour_ := decode_colour (cfg.get "colour")
    thickness_ := lexical_cast_default_unsigned (cfg.get "thickness") }

/-- Embeds `tcanvas::tline::draw(canvas, variables)`: the line after the call (its
members are assigned by the wraparound) and the canvas after the call. -/
def tline.draw (l : tline) (canvas : surface) : tline × surface :=
  let x1 := if l.x1_ < 0 then l.x1_ + (canvas.w : Int) else l.x1_
  let x2 := if l.x2_ < 0 then l.x2_ + (canvas.w : Int) else l.x2_
  let y1 := if l.y1_ < 0 then l.y1_ + (canvas.h : Int) else l.y1_
  let y2 := if l.y2_ < 0 then l.y2_ + (canvas.h : Int) else l.y2_
  let l1 := { l with x1_ := x1, x2_ := x2, y1_ := y1, y2_ := y2 }
  if x1 > x2 then (l1, draw_line canvas l.colour_ x2 y2 x1 y1)
  else (l1, draw_line canvas l.colour_ x1 y1 x2 y2)

/-- The members of `tcanvas::trectangle`. -/
structure trectangle where
  x_ : Nat
  y_ : Nat
  w_ : Nat
  h_ : Nat
  x_formula_ : String
  y_formula_ : String
  w_formula_ : String
  h_formula_ : String
  border_thickness_ : Nat
  border_colour_ : Nat
  fill_colour_ : Nat
deriving DecidableEq, Repr

/-- Embeds `tcanvas::trectangle::trectangle(const vconfig& cfg)`. -/
def trectangle.from_cfg (cfg : vconfig) : trectangle :=
  let border_thickness := lexical_cast_default_unsigned (cfg.get "border_thickness")
  let border_colour := decode_colour (cfg.get "border_colour")
  let fill_colour := decode_colour (cfg.get "fill_colour")
  let x := read_possible_formula (cfg.get "x") 0 ""
  let y := read_possible_formula (cfg.get "y") 0 ""
  let w := read_possible_formula (cfg.get "w") 0 ""
  let h := read_possible_formula (cfg.get "h") 0 ""
  { x_ := x.1, y_ := y.1, w_ := w.1, h_ := h.1
    x_formula_ := x.2, y_formula_ := y.2, w_formula_ := w.2, h_formula_ := h.2
    border_thickness_ := if border_colour = 0 then 0 else border_thickness
    border_colour_ := border_colour
    fill_colour_ := fill_colour }

/-- The border loop of `trectangle::draw`, `for(unsigned i = 0; i <
border_thickness_; ++i)`: four lines per round. The first argument is the
number of iterations left, `i` the loop variable. -/
def border_loop (border_colour x y w h : Nat) : Nat → Nat → surface → surface
  | 0, _, canvas => canvas
  | n + 1, i, canvas =>
    let left := (x + i) % 4294967296
    let right := to_unsigned ((left : Int) + (w : Int) - ((i : Int) * 2) - 1)
    let top := (y + i) % 4294967296
    let bottom := to_unsigned ((top : Int) + (h : Int) - ((i : Int) * 2) - 1)
    let canvas := draw_line canvas border_colour (to_int left) (to_int top) (to_int right) (to_int top)
    let canvas := draw_line canvas border_colour (to_int right) (to_int top) (to_int right) (to_int bottom)
    let canvas := draw_line canvas border_colour (to_int left) (to_int bottom) (to_int right) (to_int bottom)
    let canvas := draw_line canvas border_colour (to_int left) (to_int top) (to_int left) (to_int bottom)
    border_loop border_colour x y w h n (i + 1) canvas

/-- The fill loop of `trectangle::draw`, `for(unsigned i = top; i < bottom;
++i) draw_line(canvas, fill_colour_, left, i, right, i)`. The first argument
is the number of iterations left. -/
def fill_loop (fill_colour left right : Nat) : Nat → Nat → surface → surface
  | 0, _, canvas => canvas
  | n + 1, i, canvas =>
    fill_loop fill_colour left right n (i + 1)
      (draw_line canvas fill_colour (to_int left) (to_int i) (to_int right) (to_int i))

/-- Embeds `tcanvas::trectangle::draw(canvas, variables)`: the rectangle after the
call (a formula assigns its member) and the canvas after the call. -/
def trectangle.draw (E : platform) (r : trectangle) (canvas : surface)
    (vars : map_formula_callable) : trectangle × surface :=
  let y := if r.y_formula_.data ≠ [] then to_unsigned (E.formula_execute r.y_formula_ vars) else r.y_
  let x := if r.x_formula_.data ≠ [] then to_unsigned (E.formula_execute r.x_formula_ vars) else r.x_
  let w := if r.w_formula_.data ≠ [] then to_unsigned (E.formula_execute r.w_formula_ vars) else r.w_
  let h := if r.h_formula_.data ≠ [] then to_unsigned (E.formula_execute r.h_formula_ vars) else r.h_
  let r1 := { r with x_ := x, y_ := y, w_ := w, h_ := h }
  let canvas := border_loop r.border_colour_ x y w h r.border_thickness_ 0 canvas
  if r.fill_colour_ ≠ 0 then
    let left := (x + r.border_thickness_) % 4294967296
    let right := to_unsigned ((left : Int) + (w : Int) - (2 * (r.border_thickness_ : Int)) - 1)
    let top := (y + r.border_thickness_) % 4294967296
    let bottom := to_unsigned ((top : Int) + (h : Int) - (2 * (r.border_thickness_ : Int)))
    (r1, fill_loop r.fill_colour_ left right (bottom - top) top canvas)
  else (r1, canvas)

/-- The members of `tcanvas::timage`. -/
structure timage where
  src_clip_ : SDL_Rect
  dst_clip_ : SDL_Rect
  image_ : surface
deriving DecidableEq, Repr

/-- Embeds `tcanvas::timage::timage(const vconfig& cfg)`. -/
def timage.from_cfg (E : platform) (cfg : vconfig) : timage :=
  let image := E.get_image (cfg.get "name")
  { src_clip_ := create_rect 0 0 image.w image.h
    dst_clip_ := ⟨0, 0, 0, 0⟩
    image_ := image }

/-- Embeds `tcanvas::timage::draw(canvas, variables)`: the canvas after the call. -/
def timage.draw (E : platform) (m : timage) (canvas : surface) : surface :=
  E.SDL_BlitSurface m.image_ (some m.src_clip_) canvas m.dst_clip_

/-- The members of `tcanvas::ttext`. -/
structure ttext where
  x_ : Nat
  y_ : Nat
  w_ : Nat
  h_ : Nat
  font_size_ : Nat
  colour_ : Nat
  text_ : String
deriving DecidableEq, Repr

/-- Embeds `tcanvas::ttext::ttext(const vconfig& cfg)`. -/
def ttext.from_cfg (cfg : vconfig) : ttext :=
  { x_ := lexical_cast_default_unsigned (cfg.get "x")
    y_ := lexical_cast_default_unsigned (cfg.get "y")
    w_ := lexical_cast_default_unsigned (cfg.get "w")
    h_ := lexical_cast_default_unsigned (cfg.get "h")
    font_size_ := lexical_cast_default_unsigned (cfg.get "font_size")
    colour_ := decode_colour (cfg.get "colour")
    text_ := cfg.get "text" }

/-- The destination rectangle `dst` computed by `ttext::draw` for a rendered
text of width `sw` and height `sh`: the four values are computed in unsigned
arithmetic and the initialiser `SDL_Rect dst = { x_ + x_off, y_ + y_off,
w_max, h_max }` converts them to the 16-bit fields of the rectangle. -/
def ttext.dst (t : ttext) (sw sh : Nat) : SDL_Rect :=
  let x_off := if sw ≥ t.w_ then 0 else (t.w_ - sw) / 2
  let y_off := if sh ≥ t.h_ then 0 else (t.h_ - sh) / 2
  let w_max := to_unsigned ((t.w_ : Int) - (t.x_ : Int) - (x_off : Int))
  let h_max := to_unsigned ((t.h_ : Int) - (t.y_ : Int) - (y_off : Int))
  ⟨to_sint16 ((t.x_ + x_off) % 4294967296), to_sint16 ((t.y_ + y_off) % 4294967296),
    to_uint16 w_max, to_uint16 h_max⟩

/-- Embeds `tcanvas::ttext::draw(canvas, variables)`: the canvas after the call. -/
def ttext.draw (E : platform) (t : ttext) (canvas : surface) : surface :=
  let col := ((t.colour_ >>> 24) % 256, (t.colour_ >>> 16) % 256,
    (t.colour_ >>> 8) % 256, t.colour_ % 256)
  let surf := E.get_rendered_text t.text_ t.font_size_ col
  E.SDL_BlitSurface surf none canvas (t.dst surf.w surf.h)

/-- A shape of the canvas, one of the four classes derived from `tshape`. -/
inductive tshape where
  | line (s : tline)
  | rectangle (s : trectangle)
  | image (s : timage)
  | text (s : ttext)
deriving DecidableEq, Repr

/-- The virtual `tshape::draw(canvas, variables)`: the shape and the canvas
after the call. -/
def tshape.draw (E : platform) (sh : tshape) (canvas : surface)
    (vars : map_formula_callable) : tshape × surface :=
  match sh with
  | .line s => let r := s.draw canvas; (.line r.1, r.2)
  | .rectangle s => let r := s.draw E canvas vars; (.rectangle r.1, r.2)
  | .image s => (.image s, s.draw E canvas)
  | .text s => (.text s, s.draw E canvas)

/-- The name of the class of a shape, as `parse_cfg` spells the tag. -/
def tshape.type (sh : tshape) : String :=
  match sh with
  | .line _ => "line"
  | .rectangle _ => "rectangle"
  | .image _ => "image"
  | .text _ => "text"

/-! ## The canvas -/

/-- The members of `tcanvas`; `canvas_` is `none` while no surface has been
assigned. -/
structure tcanvas where
  shapes_ : List tshape
  dirty_ : Bool
  w_ : Nat
  h_ : Nat
  canvas_ : Option surface
  variables_ : map_formula_callable
deriving DecidableEq, Repr

/-- The loop of `parse_cfg` over the children left to read; `shapes` is
`shapes_` so far. `none` is the failed `assert(false)`. -/
def parse_children (E : platform) :
    List (String × vconfig) → List tshape → Option (List tshape)
  | [], shapes => some shapes
  | (type, data) :: rest, shapes =>
    if type = "line" then
      parse_children E rest (shapes ++ [tshape.line (tline.from_cfg data)])
    else if type = "rectangle" then
      parse_children E rest (shapes ++ [tshape.rectangle (trectangle.from_cfg data)])
    else if type = "image" then
      parse_children E rest (shapes ++ [tshape.image (timage.from_cfg E data)])
    else if type = "text" then
      parse_children E rest (shapes ++ [tshape.text (ttext.from_cfg data)])
    else none

/-- Embeds `tcanvas::parse_cfg(const config& cfg)`: the canvas after the call, or
`none` when the assertion on the tag fails. -/
def tcanvas.parse_cfg (E : platform) (c : tcanvas) (cfg : config) : Option tcanvas :=
  match parse_children E cfg.children [] with
  | some shapes => some { c with shapes_ := shapes }
  | none => none

/-- Embeds `tcanvas::tcanvas()`. -/
def tcanvas.create : tcanvas :=
  { shapes_ := [], dirty_ := true, w_ := 0, h_ := 0, canvas_ := none, variables_ := [] }

/-- Embeds `tcanvas::tcanvas(const config& cfg)`. -/
def tcanvas.from_cfg (E : platform) (cfg : config) : Option tcanvas :=
  tcanvas.parse_cfg E tcanvas.create cfg

/-- The loop of `tcanvas::draw(bool)` over the shapes: the shapes and the
surface after every shape has drawn itself, in list order. -/
def draw_shapes (E : platform) (vars : map_formula_callable) :
    List tshape → surface → List tshape × surface
  | [], canvas => ([], canvas)
  | sh :: rest, canvas =>
    let r := sh.draw E canvas vars
    let rs := draw_shapes E vars rest r.2
    (r.1 :: rs.1, rs.2)

/-- Embeds `tcanvas::draw(const bool force)`: the canvas after the call, and the
shapes whose `draw` was called, in call order. -/
def tcanvas.draw (E : platform) (c : tcanvas) (force : Bool) : tcanvas × List tshape :=
  if !c.dirty_ && !force then (c, [])
  else
    let vars :=
      if c.dirty_ then
        (c.variables_.add "width" (variant.int (to_int c.w_))).add "height"
          (variant.int (to_int c.h_))
      else c.variables_
    let drawn := draw_shapes E vars c.shapes_ (SDL_CreateRGBSurface c.w_ c.h_)
    ({ shapes_ := drawn.1, dirty_ := false, w_ := c.w_, h_ := c.h_,
       canvas_ := some drawn.2, variables_ := vars }, c.shapes_)

/-- Embeds `tcanvas::draw(const config& cfg)`: `parse_cfg(cfg)` then `draw(true)`. -/
def tcanvas.draw_cfg (E : platform) (c : tcanvas) (cfg : config) :
    Option (tcanvas × List tshape) :=
  match tcanvas.parse_cfg E c cfg with
  | some c1 => some (c1.draw E true)
  | none => none

/-! ## Sample inputs -/

/-- A platform whose formulas evaluate to 0, whose images and rendered texts
are empty and whose blitter leaves the destination as it is. -/
def null_platform : platform :=
  { formula_execute := fun _ _ => 0
    get_image := fun _ => SDL_CreateRGBSurface 0 0
    get_rendered_text := fun _ _ _ => SDL_CreateRGBSurface 0 0
    SDL_BlitSurface := fun _ _ dst _ => dst }

/-- The configuration with the single shape
`[line] x1=0, y1=0, x2=5, y2=0, colour="255 0 0 255"`. -/
def red_line_cfg : config :=
  ⟨[("line", ⟨[("x1", "0"), ("y1", "0"), ("x2", "5"), ("y2", "0"),
      ("colour", "255 0 0 255")]⟩)]⟩

/-- The shape `parse_cfg` builds from the child of `red_line_cfg`. -/
def red_line : tshape := tshape.line ⟨0, 0, 5, 0, 4278190335, 0⟩

/-- The canvas made by `tcanvas(red_line_cfg)`. -/
def red_line_canvas : tcanvas :=
  { shapes_ := [red_line], dirty_ := true, w_ := 0, h_ := 0, canvas_ := none, variables_ := [] }

/-- The canvas `red_line_canvas` given the width 10 and the height 10. -/
def red_line_canvas_10 : tcanvas :=
  { shapes_ := [red_line], dirty_ := true, w_ := 10, h_ := 10, canvas_ := none,
    variables_ := [] }

/-- The surface of 10 by 10 pixels with the six pixel writes of the red line. -/
def red_line_surface : surface :=
  ⟨10, 10, [⟨5, 0, 20, 4294901760⟩, ⟨4, 0, 16, 4294901760⟩, ⟨3, 0, 12, 4294901760⟩,
    ⟨2, 0, 8, 4294901760⟩, ⟨1, 0, 4, 4294901760⟩, ⟨0, 0, 0, 4294901760⟩]⟩

/-- A configuration with one child of each of the four tags. -/
def four_shapes_cfg : config :=
  ⟨[("rectangle", ⟨[("x", "1"), ("y", "1"), ("w", "4"), ("h", "3"),
      ("border_thickness", "1"), ("border_colour", "0 255 0 255")]⟩),
    ("line", ⟨[("x1", "0"), ("y1", "0"), ("x2", "5"), ("y2", "0"),
      ("colour", "255 0 0 255")]⟩),
    ("text", ⟨[("x", "0"), ("y", "0"), ("w", "8"), ("h", "8"), ("text", "hello")]⟩),
    ("image", ⟨[("name", "logo.png")]⟩)]⟩

/-- A configuration whose second child has a tag the canvas does not know. -/
def circle_cfg : config :=
  ⟨[("line", ⟨[("x1", "0"), ("y1", "0"), ("x2", "5"), ("y2", "0")]⟩),
    ("circle", ⟨[("x", "3"), ("y", "3"), ("radius", "2")]⟩)]⟩

/-- The tags `parse_cfg` knows. -/
def shape_tags : List String := ["line", "rectangle", "image", "text"]

/-! ## The calls of draw_line and the pixels they write -/

/-- One call of `draw_line`: the colour and the endpoints passed to it. -/
structure line_call where
  colour : Nat
  x1 : Int
  y1 : Int
  x2 : Int
  y2 : Int
deriving DecidableEq, Repr

/-- Runs the calls of `draw_line` listed in `calls` on `canvas`, the first
call first. -/
def run_calls (canvas : surface) (calls : List line_call) : surface :=
  calls.foldl (fun s c => draw_line s c.colour c.x1 c.y1 c.x2 c.y2) canvas

/-- The coordinates the Bresenham loop of `draw_line` passes to `put_pixel`,
in the order of the calls; the arguments are those of `bresenham_loop`. -/
def bresenham_points (incE incNE slope : Int) : Nat → Int → Int → Int → List (Int × Int)
  | 0, _, _, _ => []
  | n + 1, x, y, d =>
    if d ≤ 0 then (x, y) :: bresenham_points incE incNE slope n (x + 1) y (d + incE)
    else (x, y) :: bresenham_points incE incNE slope n (x + 1) (y + slope) (d + incNE)

/-- The coordinates `draw_line(canvas, colour, x1, y1, x2, y2)` passes to
`put_pixel`, in the order of the calls. -/
def line_points (x1 y1 x2 y2 : Int) : List (Int × Int) :=
  if x1 = x2 then
    let lo := if y2 < y1 then y2 else y1
    let hi := if y2 < y1 then y1 else y2
    (List.range (hi + 1 - lo).toNat).map (fun k : Nat => (x1, lo + (k : Int)))
  else if y1 = y2 then
    (List.range (x2 + 1 - x1).toNat).map (fun k : Nat => (x1 + (k : Int), y1))
  else
    let dx := x2 - x1
    let dy := y2 - y1
    let slope : Int := if dy < 0 then -1 else 1
    let dy := if dy < 0 then -dy else dy
    bresenham_points (2 * dy) (2 * dy - 2 * dx) slope (x2 + 1 - x1).toNat x1 y1 (2 * dy - dx)

/-- The pixel writes one call of `draw_line` makes on a surface of width `w`,
the oldest first. -/
def call_writes (w : Nat) (c : line_call) : List pixel_write :=
  (line_points c.x1 c.y1 c.x2 c.y2).map
    (fun q => pixel_write.mk q.1 q.2 (pixel_offset w q.1 q.2) (map_colour c.colour))

/-- The calls of `draw_line` made by the border loop of `trectangle::draw`, in
call order; the arguments are those of `border_loop`. -/
def border_calls (border_colour x y w h : Nat) : Nat → Nat → List line_call
  | 0, _ => []
  | n + 1, i =>
    let left := (x + i) % 4294967296
    let right := to_unsigned ((left : Int) + (w : Int) - ((i : Int) * 2) - 1)
    let top := (y + i) % 4294967296
    let bottom := to_unsigned ((top : Int) + (h : Int) - ((i : Int) * 2) - 1)
    ⟨border_colour, to_int left, to_int top, to_int right, to_int top⟩ ::
    ⟨border_colour, to_int right, to_int top, to_int right, to_int bottom⟩ ::
    ⟨border_colour, to_int left, to_int bottom, to_int right, to_int bottom⟩ ::
    ⟨border_colour, to_int left, to_int top, to_int left, to_int bottom⟩ ::
    border_calls border_colour x y w h n (i + 1)

/-- The calls of `draw_line` made by the fill loop of `trectangle::draw`, in
call order; the arguments are those of `fill_loop`. -/
def fill_calls (fill_colour left right : Nat) : Nat → Nat → List line_call
  | 0, _ => []
  | n + 1, i =>
    ⟨fill_colour, to_int left, to_int i, to_int right, to_int i⟩ ::
    fill_calls fill_colour left right n (i + 1)

/-- The rectangle after the head of `trectangle::draw` has assigned the value
of each non-empty formula to its member. -/
def trectangle.evaluate (E : platform) (r : trectangle) (vars : map_formula_callable) :
    trectangle :=
  { r with
    x_ := if r.x_formula_.data ≠ [] then to_unsigned (E.formula_execute r.x_formula_ vars) else r.x_
    y_ := if r.y_formula_.data ≠ [] then to_unsigned (E.formula_execute r.y_formula_ vars) else r.y_
    w_ := if r.w_formula_.data ≠ [] then to_unsigned (E.formula_execute r.w_formula_ vars) else r.w_
    h_ := if r.h_formula_.data ≠ [] then to_unsigned (E.formula_execute r.h_formula_ vars) else r.h_ }

/-- The calls of `draw_line` made by `trectangle::draw`, in call order: those
of the border loop, then those of the fill loop when there is a fill colour. -/
def trectangle.calls (E : platform) (r : trectangle) (vars : map_formula_callable) :
    List line_call :=
  let e := r.evaluate E vars
  border_calls r.border_colour_ e.x_ e.y_ e.w_ e.h_ r.border_thickness_ 0 ++
    (if r.fill_colour_ ≠ 0 then
      let left := (e.x_ + r.border_thickness_) % 4294967296
      let right := to_unsigned ((left : Int) + (e.w_ : Int) - (2 * (r.border_thickness_ : Int)) - 1)
      let top := (e.y_ + r.border_thickness_) % 4294967296
      let bottom := to_unsigned ((top : Int) + (e.h_ : Int) - (2 * (r.border_thickness_ : Int)))
      fill_calls r.fill_colour_ left right (bottom - top) top
    else [])

/-- The call of `draw_line` made by `tline::draw` on a canvas of width `w` and
height `h`. -/
def tline.calls (l : tline) (w h : Nat) : List line_call :=
  let x1 := if l.x1_ < 0 then l.x1_ + (w : Int) else l.x1_
  let x2 := if l.x2_ < 0 then l.x2_ + (w : Int) else l.x2_
  let y1 := if l.y1_ < 0 then l.y1_ + (h : Int) else l.y1_
  let y2 := if l.y2_ < 0 then l.y2_ + (h : Int) else l.y2_
  if x1 > x2 then [⟨l.colour_, x2, y2, x1, y1⟩] else [⟨l.colour_, x1, y1, x2, y2⟩]

/-- Whether the shape, drawing itself on a new surface of width `w` and height
`h`, writes to the byte offset of the pixel in column `x` of row `y`. -/
def tshape.writes_pixel (E : platform) (vars : map_formula_callable) (w h : Nat)
    (sh : tshape) (x y : Int) : Bool :=
  (sh.draw E (SDL_CreateRGBSurface w h) vars).2.pixels.any
    (fun p => p.offset = pixel_offset w x y)

/-- The colour string `colour` with `n` more fields "0" appended, each after a
space. -/
def append_zero_fields : Nat → String → String
  | 0, colour => colour
  | n + 1, colour => append_zero_fields n (colour ++ " 0")

/-! ## Boxes, outlines and written pixels -/

/-- The pixel in column `px` of row `py` lies in the box `[x, x+w) x [y, y+h)`. -/
def in_box (x y w h : Nat) (px py : Int) : Prop :=
  (x : Int) ≤ px ∧ px < (x : Int) + w ∧ (y : Int) ≤ py ∧ py < (y : Int) + h

instance (x y w h : Nat) (px py : Int) : Decidable (in_box x y w h px py) := by
  unfold in_box
  infer_instance

/-- The pixel lies in the inner box `[x+t, x+w-t) x [y+t, y+h-t)`. -/
def in_inner_box (x y w h t : Nat) (px py : Int) : Prop :=
  (x : Int) + t ≤ px ∧ px < (x : Int) + w - t ∧ (y : Int) + t ≤ py ∧ py < (y : Int) + h - t

instance (x y w h t : Nat) (px py : Int) : Decidable (in_inner_box x y w h t px py) := by
  unfold in_inner_box
  infer_instance

/-- The pixel lies on the outline number `i`: the sides of the rectangle with
corners `(x+i, y+i)` and `(x+w-i-1, y+h-i-1)`. -/
def on_outline (x y w h i : Nat) (px py : Int) : Prop :=
  ((x : Int) + i ≤ px ∧ px ≤ (x : Int) + w - i - 1 ∧
    (y : Int) + i ≤ py ∧ py ≤ (y : Int) + h - i - 1) ∧
  (px = (x : Int) + i ∨ px = (x : Int) + w - i - 1 ∨
    py = (y : Int) + i ∨ py = (y : Int) + h - i - 1)

instance (x y w h i : Nat) (px py : Int) : Decidable (on_outline x y w h i px py) := by
  unfold on_outline
  infer_instance

/-- A pixel write of the list `W` is at column `px` of row `py`. -/
def written_at (W : List pixel_write) (px py : Int) : Prop :=
  ∃ p ∈ W, p.x = px ∧ p.y = py

/-! ## More sample inputs -/

/-- The rectangle with corner (1, 1), width 4, height 3, a green border of
thickness 1 and a blue fill, all literal. -/
def sample_rectangle : trectangle :=
  { x_ := 1, y_ := 1, w_ := 4, h_ := 3
    x_formula_ := "", y_formula_ := "", w_formula_ := "", h_formula_ := ""
    border_thickness_ := 1, border_colour_ := 16711935, fill_colour_ := 65535 }

/-- A new canvas of 10 by 10 holding the sample rectangle and then a red line
along row 2, from column 0 to column 5. -/
def two_shapes_canvas : tcanvas :=
  { shapes_ := [tshape.rectangle sample_rectangle, tshape.line ⟨0, 2, 5, 2, 4278190335, 0⟩]
    dirty_ := true, w_ := 10, h_ := 10, canvas_ := none, variables_ := [] }

/-- The attributes of a rectangle with a border thickness but no border colour. -/
def borderless_cfg : vconfig :=
  ⟨[("x", "1"), ("y", "1"), ("w", "4"), ("h", "3"), ("border_thickness", "2"),
    ("fill_colour", "0 0 255 255")]⟩

/-! ## Lemmas on the text helpers -/

theorem split_chars_field (f : List Char) (hf : ∀ c ∈ f, c.isWhitespace = false)
    (rest cur : List Char) :
    split_chars (f ++ rest) cur = split_chars rest (cur ++ f) := by
  induction f generalizing cur with
  | nil => simp
  | cons c cs ih =>
    have hc : c.isWhitespace = false := hf c (by simp)
    have hcs : ∀ d ∈ cs, d.isWhitespace = false := fun d hd => hf d (by simp [hd])
    simp [split_chars, hc, ih hcs]

set_option maxRecDepth 1000000 in
theorem decimal_field : ∀ r : Nat, r < 256 →
    (∀ c ∈ (toString r).data, c.isWhitespace = false) ∧ (toString r).data ≠ [] ∧
      lexical_cast_default_int (toString r) = (r : Int) := by
  decide


theorem shiftLeft_lor (x y n : Nat) : (x ||| y) <<< n = (x <<< n) ||| (y <<< n) := by
  apply Nat.eq_of_testBit_eq
  intro i
  simp only [Nat.testBit_shiftLeft, Nat.testBit_or]
  cases decide (i ≥ n) <;> simp

theorem pack_channels (r g b a : Nat) (hr : r < 256) (hg : g < 256) (hb : b < 256) :
    ((((((((0 <<< 8) % 4294967296 ||| r) <<< 8) % 4294967296 ||| g) <<< 8) % 4294967296
      ||| b) <<< 8) % 4294967296 ||| a)
      = (r <<< 24) ||| (g <<< 16) ||| (b <<< 8) ||| a := by
  have h1 : (r <<< 8 ||| g) < 2 ^ 16 :=
    Nat.or_lt_two_pow (by rw [Nat.shiftLeft_eq]; omega) (by omega)
  have h2 : ((r <<< 8 ||| g) <<< 8 ||| b) < 2 ^ 24 :=
    Nat.or_lt_two_pow (by rw [Nat.shiftLeft_eq]; omega) (by omega)
  have e1 : (r <<< 8) % 4294967296 = r <<< 8 :=
    Nat.mod_eq_of_lt (by rw [Nat.shiftLeft_eq]; omega)
  have e2 : ((r <<< 8 ||| g) <<< 8) % 4294967296 = (r <<< 8 ||| g) <<< 8 :=
    Nat.mod_eq_of_lt (by rw [Nat.shiftLeft_eq]; omega)
  have e3 : (((r <<< 8 ||| g) <<< 8 ||| b) <<< 8) % 4294967296
      = ((r <<< 8 ||| g) <<< 8 ||| b) <<< 8 :=
    Nat.mod_eq_of_lt (by rw [Nat.shiftLeft_eq]; omega)
  simp only [Nat.zero_shiftLeft, Nat.zero_mod, Nat.zero_or]
  rw [e1, e2, e3]
  simp only [shiftLeft_lor, ← Nat.shiftLeft_add]

theorem pad_fields_four (f1 f2 f3 f4 : String) :
    pad_fields 4 [f1, f2, f3, f4] = [f1, f2, f3, f4] := by
  simp [pad_fields]

theorem to_unsigned_natCast (n : Nat) (h : n < 4294967296) : to_unsigned (n : Int) = n := by
  unfold to_unsigned
  omega

theorem split_four (f1 f2 f3 f4 : String)
    (h1 : ∀ c ∈ f1.data, c.isWhitespace = false) (n1 : f1.data ≠ [])
    (h2 : ∀ c ∈ f2.data, c.isWhitespace = false) (n2 : f2.data ≠ [])
    (h3 : ∀ c ∈ f3.data, c.isWhitespace = false) (n3 : f3.data ≠ [])
    (h4 : ∀ c ∈ f4.data, c.isWhitespace = false) (n4 : f4.data ≠ []) :
    split (f1 ++ " " ++ f2 ++ " " ++ f3 ++ " " ++ f4) = [f1, f2, f3, f4] := by
  have hsp : (" " : String).data = [' '] := rfl
  have step : ∀ (f : String), (∀ c ∈ f.data, c.isWhitespace = false) → f.data ≠ [] →
      ∀ rest, split_chars (f.data ++ ' ' :: rest) [] = f :: split_chars rest [] := by
    intro f hf nf rest
    rw [split_chars_field f.data hf]
    simp [split_chars, nf]
  have last : ∀ (f : String), (∀ c ∈ f.data, c.isWhitespace = false) → f.data ≠ [] →
      split_chars f.data [] = [f] := by
    intro f hf nf
    have := split_chars_field f.data hf [] []
    simp only [List.append_nil, List.nil_append] at this
    rw [this]
    simp [split_chars, nf]
  unfold split
  simp only [String.data_append, hsp, List.append_assoc, List.singleton_append, List.cons_append,
    List.nil_append]
  rw [step f1 h1 n1, step f2 h2 n2, step f3 h3 n3, last f4 h4 n4]

/-- C1. For all r, g, b, a in [0,255], decode_colour of the four-field string
"r g b a" (decimal fields separated by one space) is (r<<24)|(g<<16)|(b<<8)|a. -/
theorem decode_colour_four_fields (r g b a : Nat) (hr : r ≤ 255) (hg : g ≤ 255)
    (hb : b ≤ 255) (ha : a ≤ 255) :
    decode_colour (toString r ++ " " ++ toString g ++ " " ++ toString b ++ " " ++ toString a)
      = (r <<< 24) ||| (g <<< 16) ||| (b <<< 8) ||| a := by
  obtain ⟨wr, nr, vr⟩ := decimal_field r (by omega)
  obtain ⟨wg, ng, vg⟩ := decimal_field g (by omega)
  obtain ⟨wb, nb, vb⟩ := decimal_field b (by omega)
  obtain ⟨wa, na, va⟩ := decimal_field a (by omega)
  unfold decode_colour
  rw [split_four _ _ _ _ wr nr wg ng wb nb wa na, pad_fields_four]
  simp only [decode_fields, Nat.reduceAdd, Nat.reduceSub, List.getD_cons_zero,
    List.getD_cons_succ, vr, vg, vb, va]
  rw [to_unsigned_natCast r (by omega), to_unsigned_natCast g (by omega),
    to_unsigned_natCast b (by omega), to_unsigned_natCast a (by omega)]
  exact pack_channels r g b a (by omega) (by omega) (by omega)

/-- Instance of C1 at the colour "255 0 0 255". -/
theorem decode_colour_four_fields_witness :
    (255 : Nat) ≤ 255 ∧ (0 : Nat) ≤ 255 ∧
    decode_colour (toString 255 ++ " " ++ toString 0 ++ " " ++ toString 0 ++ " " ++ toString 255)
      = (255 <<< 24) ||| (0 <<< 16) ||| (0 <<< 8) ||| 255 :=
  ⟨by decide, by decide,
    decode_colour_four_fields 255 0 0 255 (by decide) (by decide) (by decide) (by decide)⟩

/-! ## read_possible_formula -/

/-- C2 (as stated, refuted). With the text "42", prior value 7 and prior
expression "(a)", the value becomes 42 but the expression stays "(a)": it is
not cleared. -/
theorem read_possible_formula_number_counterexample :
    ("42" : String) ≠ "" ∧ ("42" : String).data.head? ≠ some '(' ∧
      read_possible_formula "42" 7 "(a)" = (42, "(a)") ∧
      (read_possible_formula "42" 7 "(a)").2 ≠ "" := by
  decide

/-- C2 (amended). For every non-empty text that does not start with '(' and
every prior value and expression, read_possible_formula sets the value to the
text parsed as an unsigned integer (0 on failure) and leaves the expression
exactly as it was. -/
theorem read_possible_formula_number (str : String) (value : Nat) (formula : String)
    (hne : str ≠ "") (hpar : str.data.head? ≠ some '(') :
    read_possible_formula str value formula = (lexical_cast_default_unsigned str, formula) := by
  have hd : str.data ≠ [] := fun h => hne (String.ext h)
  simp [read_possible_formula, hd, hpar]

/-- Instance of the amended C2 at the text "42", prior value 7 and prior expression "(a)". -/
theorem read_possible_formula_number_witness :
    ("42" : String) ≠ "" ∧ ("42" : String).data.head? ≠ some '(' ∧
      read_possible_formula "42" 7 "(a)" = (lexical_cast_default_unsigned "42", "(a)") :=
  ⟨by decide, by decide, read_possible_formula_number "42" 7 "(a)" (by decide) (by decide)⟩

/-! ## draw_line on horizontal and vertical segments -/

theorem horizontal_loop_pixels (colour w : Nat) (y : Int) (n : Nat) (x : Int) (s : surface) :
    horizontal_loop colour w y n x s =
      { s with pixels :=
          ((List.range n).map (fun k : Nat =>
            pixel_write.mk (x + k) y (pixel_offset w (x + k) y) colour)).reverse ++ s.pixels } := by
  induction n generalizing x s with
  | zero => simp [horizontal_loop]
  | succ n ih =>
    rw [horizontal_loop, ih, List.range_succ_eq_map]
    simp only [put_pixel, List.map_cons, List.map_map, List.reverse_cons, List.append_assoc,
      List.singleton_append, Nat.cast_zero, add_zero]
    congr 3
    apply List.map_congr_left
    intro k _
    simp only [Function.comp, Nat.cast_succ]
    rw [show x + 1 + (k : Int) = x + ((k : Int) + 1) by ring]

theorem vertical_loop_pixels (colour w : Nat) (x : Int) (n : Nat) (y : Int) (s : surface) :
    vertical_loop colour w x n y s =
      { s with pixels :=
          ((List.range n).map (fun k : Nat =>
            pixel_write.mk x (y + k) (pixel_offset w x (y + k)) colour)).reverse ++ s.pixels } := by
  induction n generalizing y s with
  | zero => simp [vertical_loop]
  | succ n ih =>
    rw [vertical_loop, ih, List.range_succ_eq_map]
    simp only [put_pixel, List.map_cons, List.map_map, List.reverse_cons, List.append_assoc,
      List.singleton_append, Nat.cast_zero, add_zero]
    congr 3
    apply List.map_congr_left
    intro k _
    simp only [Function.comp, Nat.cast_succ]
    rw [show y + 1 + (k : Int) = y + ((k : Int) + 1) by ring]

theorem draw_line_horizontal_eq (canvas : surface) (colour : Nat) (x1 x2 y : Int) :
    draw_line canvas colour x1 y x2 y =
      { canvas with pixels :=
          ((List.range (x2 + 1 - x1).toNat).map (fun k : Nat =>
            pixel_write.mk (x1 + k) y (pixel_offset canvas.w (x1 + k) y)
              (map_colour colour))).reverse ++ canvas.pixels } := by
  unfold draw_line
  by_cases hx : x1 = x2
  · subst hx
    simp only [if_true, lt_self_iff_false, if_false]
    rw [vertical_loop_pixels]
    have h1 : (y + 1 - y).toNat = 1 := by omega
    have h2 : (x1 + 1 - x1).toNat = 1 := by omega
    rw [h1, h2]
    simp [List.range_succ]
  · simp only [hx, if_false, if_true]
    rw [horizontal_loop_pixels]

theorem draw_line_vertical_eq (canvas : surface) (colour : Nat) (x y1 y2 : Int) :
    draw_line canvas colour x y1 x y2 =
      { canvas with pixels :=
          ((List.range ((max y1 y2) + 1 - (min y1 y2)).toNat).map (fun k : Nat =>
            pixel_write.mk x (min y1 y2 + k) (pixel_offset canvas.w x (min y1 y2 + k))
              (map_colour colour))).reverse ++ canvas.pixels } := by
  unfold draw_line
  simp only [if_true]
  rw [vertical_loop_pixels]
  by_cases hy : y2 < y1
  · simp only [hy, if_true]
    rw [max_eq_left (le_of_lt hy), min_eq_right (le_of_lt hy)]
  · simp only [hy, if_false]
    rw [max_eq_right (not_lt.mp hy), min_eq_left (not_lt.mp hy)]

/-- C5 (as stated, refuted). With the endpoints in decreasing x order,
draw_line(5, 0, 0, 0) on a 10 by 10 surface writes no pixel at all, not the
six pixels of columns 0 to 5. -/
theorem draw_line_horizontal_counterexample :
    (draw_line (SDL_CreateRGBSurface 10 10) 4278190335 5 0 0 0).pixels = [] := by
  decide

/-- C5 (amended). For all integers x1 ≤ x2 and y, draw_line(x1, y, x2, y)
writes exactly |x2 - x1| + 1 pixels with distinct coordinates, all in row y,
their columns being exactly the integers from x1 to x2; nothing else of the
surface changes. -/
theorem draw_line_horizontal (canvas : surface) (colour : Nat) (x1 x2 y : Int)
    (h : x1 ≤ x2) :
    ∃ written : List pixel_write,
      draw_line canvas colour x1 y x2 y = { canvas with pixels := written ++ canvas.pixels } ∧
      (written.length : Int) = |x2 - x1| + 1 ∧
      (written.map (fun p => (p.x, p.y))).Nodup ∧
      (∀ p ∈ written, p.y = y ∧ p.colour = map_colour colour ∧
        p.offset = pixel_offset canvas.w p.x p.y) ∧
      (∀ x : Int, (∃ p ∈ written, p.x = x) ↔ (x1 ≤ x ∧ x ≤ x2)) := by
  refine ⟨_, draw_line_horizontal_eq canvas colour x1 x2 y, ?_, ?_, ?_, ?_⟩
  · rw [List.length_reverse, List.length_map, List.length_range, abs_of_nonneg (by omega)]
    omega
  · rw [List.map_reverse, List.nodup_reverse, List.map_map]
    refine (List.nodup_range _).map_on ?_
    intro a _ b _ hab
    simp only [Function.comp, Prod.mk.injEq] at hab
    omega
  · intro p hp
    simp only [List.mem_reverse, List.mem_map, List.mem_range] at hp
    obtain ⟨k, _, rfl⟩ := hp
    exact ⟨rfl, rfl, rfl⟩
  · intro x
    simp only [List.mem_reverse, List.mem_map, List.mem_range]
    constructor
    · rintro ⟨p, ⟨k, hk, rfl⟩, rfl⟩
      simp only
      omega
    · intro hx
      exact ⟨_, ⟨(x - x1).toNat, by omega, rfl⟩, by simp only; omega⟩

/-- Instance of the amended C5 at the segment from (0,0) to (5,0) on a new surface of 10 by 10 pixels. -/
theorem draw_line_horizontal_witness :
    ((0 : Int) ≤ 5) ∧ ∃ written : List pixel_write,
      draw_line (SDL_CreateRGBSurface 10 10) 4278190335 0 0 5 0 =
        { SDL_CreateRGBSurface 10 10 with
          pixels := written ++ (SDL_CreateRGBSurface 10 10).pixels } ∧
      (written.length : Int) = |(5 : Int) - 0| + 1 ∧
      (written.map (fun p => (p.x, p.y))).Nodup ∧
      (∀ p ∈ written, p.y = 0 ∧ p.colour = map_colour 4278190335 ∧
        p.offset = pixel_offset (SDL_CreateRGBSurface 10 10).w p.x p.y) ∧
      (∀ x : Int, (∃ p ∈ written, p.x = x) ↔ (0 ≤ x ∧ x ≤ 5)) :=
  ⟨by decide, draw_line_horizontal (SDL_CreateRGBSurface 10 10) 4278190335 0 5 0 (by decide)⟩

/-- C6. For all integers x, y1 and y2 in either order, draw_line(x, y1, x, y2)
writes exactly |y2 - y1| + 1 pixels with distinct coordinates, all in column
x, their rows being exactly the integers from min(y1,y2) to max(y1,y2);
nothing else of the surface changes. -/
theorem draw_line_vertical (canvas : surface) (colour : Nat) (x y1 y2 : Int) :
    ∃ written : List pixel_write,
      draw_line canvas colour x y1 x y2 = { canvas with pixels := written ++ canvas.pixels } ∧
      (written.length : Int) = |y2 - y1| + 1 ∧
      (written.map (fun p => (p.x, p.y))).Nodup ∧
      (∀ p ∈ written, p.x = x ∧ p.colour = map_colour colour ∧
        p.offset = pixel_offset canvas.w p.x p.y) ∧
      (∀ y : Int, (∃ p ∈ written, p.y = y) ↔ (min y1 y2 ≤ y ∧ y ≤ max y1 y2)) := by
  refine ⟨_, draw_line_vertical_eq canvas colour x y1 y2, ?_, ?_, ?_, ?_⟩
  · rw [List.length_reverse, List.length_map, List.length_range]
    rcases le_total y1 y2 with hy | hy
    · rw [max_eq_right hy, min_eq_left hy, abs_of_nonneg (by omega)]
      omega
    · rw [max_eq_left hy, min_eq_right hy, abs_of_nonpos (by omega)]
      omega
  · rw [List.map_reverse, List.nodup_reverse, List.map_map]
    refine (List.nodup_range _).map_on ?_
    intro a _ b _ hab
    simp only [Function.comp, Prod.mk.injEq] at hab
    omega
  · intro p hp
    simp only [List.mem_reverse, List.mem_map, List.mem_range] at hp
    obtain ⟨k, _, rfl⟩ := hp
    exact ⟨rfl, rfl, rfl⟩
  · intro y
    simp only [List.mem_reverse, List.mem_map, List.mem_range]
    constructor
    · rintro ⟨p, ⟨k, hk, rfl⟩, rfl⟩
      simp only
      omega
    · intro hy
      exact ⟨_, ⟨(y - min y1 y2).toNat, by omega, rfl⟩, by simp only; omega⟩

/-! ## The canvas: parsing -/

theorem parse_children_valid (E : platform) (l : List (String × vconfig))
    (h : ∀ ch ∈ l, ch.1 ∈ shape_tags) :
    ∃ new : List tshape, new.map tshape.type = l.map Prod.fst ∧
      ∀ shapes, parse_children E l shapes = some (shapes ++ new) := by
  induction l with
  | nil => exact ⟨[], rfl, fun shapes => by simp [parse_children]⟩
  | cons ch rest ih =>
    obtain ⟨new, hnew, hall⟩ := ih (fun d hd => h d (List.mem_cons_of_mem _ hd))
    obtain ⟨type, data⟩ := ch
    have ht : type ∈ shape_tags := h (type, data) (List.mem_cons_self _ _)
    simp only [shape_tags, List.mem_cons, List.mem_singleton, List.not_mem_nil, or_false] at ht
    rcases ht with rfl | rfl | rfl | rfl
    · refine ⟨tshape.line (tline.from_cfg data) :: new, by simp [tshape.type, hnew], ?_⟩
      intro shapes
      simp [parse_children, hall]
    · refine ⟨tshape.rectangle (trectangle.from_cfg data) :: new,
        by simp [tshape.type, hnew], ?_⟩
      intro shapes
      simp [parse_children, hall]
    · refine ⟨tshape.image (timage.from_cfg E data) :: new, by simp [tshape.type, hnew], ?_⟩
      intro shapes
      simp [parse_children, hall]
    · refine ⟨tshape.text (ttext.from_cfg data) :: new, by simp [tshape.type, hnew], ?_⟩
      intro shapes
      simp [parse_children, hall]

theorem parse_children_none_iff (E : platform) (l : List (String × vconfig))
    (shapes : List tshape) :
    parse_children E l shapes = none ↔ ∃ ch ∈ l, ch.1 ∉ shape_tags := by
  induction l generalizing shapes with
  | nil => simp [parse_children]
  | cons ch rest ih =>
    obtain ⟨type, data⟩ := ch
    simp only [parse_children, List.mem_cons, exists_eq_or_imp]
    by_cases h1 : type = "line"
    · simp [h1, ih, shape_tags]
    · by_cases h2 : type = "rectangle"
      · simp [h2, ih, shape_tags]
      · by_cases h3 : type = "image"
        · simp [h3, ih, shape_tags]
        · by_cases h4 : type = "text"
          · simp [h4, ih, shape_tags]
          · simp [h1, h2, h3, h4, shape_tags]

theorem parse_children_length (E : platform) (l : List (String × vconfig))
    (shapes result : List tshape) (h : parse_children E l shapes = some result) :
    result.length = shapes.length + l.length := by
  induction l generalizing shapes with
  | nil =>
    simp only [parse_children, Option.some.injEq] at h
    simp [← h]
  | cons ch rest ih =>
    obtain ⟨type, data⟩ := ch
    simp only [parse_children] at h
    split_ifs at h <;>
    · have hlen := ih _ h
      simp only [List.length_append, List.length_cons, List.length_nil] at hlen ⊢
      omega

/-- C8. For every configuration whose child tags are all among line,
rectangle, image and text, and every prior canvas, parse_cfg succeeds and
leaves one shape per child, in the children order, the i-th shape being of
the class named by the i-th tag; the list does not depend on the shapes held
before the call, and parsing the same configuration again gives the same
canvas. -/
theorem parse_cfg_rebuilds_shapes (E : platform) (c : tcanvas) (cfg : config)
    (h : ∀ ch ∈ cfg.children, ch.1 ∈ shape_tags) :
    ∃ c1 : tcanvas, c.parse_cfg E cfg = some c1 ∧
      c1.shapes_.length = cfg.children.length ∧
      c1.shapes_.map tshape.type = cfg.children.map Prod.fst ∧
      (∀ d : tcanvas, (d.parse_cfg E cfg).map tcanvas.shapes_ = some c1.shapes_) ∧
      c1.parse_cfg E cfg = some c1 := by
  obtain ⟨new, hnew, hall⟩ := parse_children_valid E cfg.children h
  refine ⟨{ c with shapes_ := new }, ?_, ?_, hnew, ?_, ?_⟩
  · simp [tcanvas.parse_cfg, hall]
  · have := congrArg List.length hnew
    simpa using this
  · intro d
    simp [tcanvas.parse_cfg, hall]
  · simp [tcanvas.parse_cfg, hall]

/-- Instance of C8: the configuration with four children parsed into a canvas that held the red line. -/
theorem parse_cfg_rebuilds_shapes_witness :
    (∀ ch ∈ four_shapes_cfg.children, ch.1 ∈ shape_tags) ∧
    ∃ c1 : tcanvas, red_line_canvas.parse_cfg null_platform four_shapes_cfg = some c1 ∧
      c1.shapes_.length = four_shapes_cfg.children.length ∧
      c1.shapes_.map tshape.type = four_shapes_cfg.children.map Prod.fst ∧
      (∀ d : tcanvas,
        (d.parse_cfg null_platform four_shapes_cfg).map tcanvas.shapes_ = some c1.shapes_) ∧
      c1.parse_cfg null_platform four_shapes_cfg = some c1 :=
  ⟨by decide, parse_cfg_rebuilds_shapes null_platform _ four_shapes_cfg (by decide)⟩

/-- C9. parse_cfg fails on the assertion of the tag dispatch if and only if
the configuration has a child whose tag is not one of line, rectangle, image,
text; and whenever it succeeds the shape list has one shape per child, so no
child was skipped. -/
theorem parse_cfg_fails_iff_unknown_tag (E : platform) (c : tcanvas) (cfg : config) :
    (c.parse_cfg E cfg = none ↔ ∃ ch ∈ cfg.children, ch.1 ∉ shape_tags) ∧
    (∀ c1 : tcanvas, c.parse_cfg E cfg = some c1 →
      c1.shapes_.length = cfg.children.length) := by
  constructor
  · rw [← parse_children_none_iff E cfg.children []]
    unfold tcanvas.parse_cfg
    cases parse_children E cfg.children [] <;> simp
  · intro c1 h1
    unfold tcanvas.parse_cfg at h1
    cases hp : parse_children E cfg.children [] with
    | none => simp [hp] at h1
    | some shapes =>
      simp only [hp, Option.some.injEq] at h1
      have := parse_children_length E cfg.children [] shapes hp
      simp [← h1, this]

/-- Instance of C9: the configuration with a circle child fails, the one with the four known tags keeps one shape per child. -/
theorem parse_cfg_fails_iff_unknown_tag_witness :
    tcanvas.create.parse_cfg null_platform circle_cfg = none ∧
    (∃ ch ∈ circle_cfg.children, ch.1 ∉ shape_tags) ∧
    (∀ c1 : tcanvas, tcanvas.create.parse_cfg null_platform four_shapes_cfg = some c1 →
      c1.shapes_.length = four_shapes_cfg.children.length) :=
  ⟨by decide,
    ((parse_cfg_fails_iff_unknown_tag null_platform tcanvas.create circle_cfg).1).1 (by decide),
    (parse_cfg_fails_iff_unknown_tag null_platform tcanvas.create four_shapes_cfg).2⟩

/-! ## The canvas: drawing and the dirty flag -/

theorem from_cfg_fields (E : platform) (cfg : config) (c0 : tcanvas)
    (h : tcanvas.from_cfg E cfg = some c0) :
    c0.dirty_ = true ∧ c0.canvas_ = none ∧ c0.variables_ = [] ∧ c0.w_ = 0 ∧ c0.h_ = 0 := by
  unfold tcanvas.from_cfg tcanvas.parse_cfg at h
  cases hp : parse_children E cfg.children [] with
  | none => simp [hp] at h
  | some shapes =>
    simp only [hp, Option.some.injEq] at h
    subst h
    simp [tcanvas.create]

theorem draw_dirty (E : platform) (c : tcanvas) (force : Bool) (h : c.dirty_ = true) :
    c.draw E force =
      ({ shapes_ := (draw_shapes E ((c.variables_.add "width" (variant.int (to_int c.w_))).add
            "height" (variant.int (to_int c.h_))) c.shapes_
            (SDL_CreateRGBSurface c.w_ c.h_)).1,
         dirty_ := false, w_ := c.w_, h_ := c.h_,
         canvas_ := some (draw_shapes E ((c.variables_.add "width"
            (variant.int (to_int c.w_))).add "height" (variant.int (to_int c.h_))) c.shapes_
            (SDL_CreateRGBSurface c.w_ c.h_)).2,
         variables_ := (c.variables_.add "width" (variant.int (to_int c.w_))).add "height"
            (variant.int (to_int c.h_)) }, c.shapes_) := by
  simp [tcanvas.draw, h]

theorem draw_clean (E : platform) (c : tcanvas) (h : c.dirty_ = false) :
    c.draw E false = (c, []) := by
  simp [tcanvas.draw, h]

theorem draw_clears_dirty (E : platform) (c : tcanvas) (force : Bool) :
    (c.draw E force).1.dirty_ = false := by
  unfold tcanvas.draw
  by_cases h : (!c.dirty_ && !force) = true
  · rw [if_pos h]
    simp only [Bool.and_eq_true, Bool.not_eq_true'] at h
    exact h.1
  · rw [if_neg h]

/-- C3. A freshly constructed canvas (either constructor, whatever size it
was given since) is dirty, so draw(false) performs a draw: it binds width and
height, allocates a new surface of the canvas size, has every shape of the
list draw itself on it in list order, and clears the dirty flag. A second
draw(false) right after returns the canvas unchanged (surface, shapes,
variables, dirty flag) and calls the draw of no shape. -/
theorem draw_fresh_then_noop (E : platform) (cfg : config) (c0 c : tcanvas) (w h : Nat)
    (hfresh : c0 = tcanvas.create ∨ tcanvas.from_cfg E cfg = some c0)
    (hsize : c = { c0 with w_ := w, h_ := h }) :
    (c.draw E false).1.canvas_ =
        some (draw_shapes E ((c.variables_.add "width" (variant.int (to_int w))).add "height"
          (variant.int (to_int h))) c0.shapes_ (SDL_CreateRGBSurface w h)).2 ∧
      (c.draw E false).1.shapes_ =
        (draw_shapes E ((c.variables_.add "width" (variant.int (to_int w))).add "height"
          (variant.int (to_int h))) c0.shapes_ (SDL_CreateRGBSurface w h)).1 ∧
      (c.draw E false).2 = c0.shapes_ ∧
      (c.draw E false).1.dirty_ = false ∧
      (c.draw E false).1.draw E false = ((c.draw E false).1, []) := by
  have hd : c.dirty_ = true := by
    rcases hfresh with rfl | hf
    · simp [hsize, tcanvas.create]
    · simp [hsize, (from_cfg_fields E cfg c0 hf).1]
  have hw : c.w_ = w := by simp [hsize]
  have hh : c.h_ = h := by simp [hsize]
  have hs : c.shapes_ = c0.shapes_ := by simp [hsize]
  refine ⟨?_, ?_, ?_, draw_clears_dirty E c false, draw_clean E _ (draw_clears_dirty E c false)⟩
  · rw [draw_dirty E c false hd, hw, hh, hs]
  · rw [draw_dirty E c false hd, hw, hh, hs]
  · rw [draw_dirty E c false hd, hs]

/-- Instance of C3 at the canvas constructed from the red line configuration and sized 10 by 10. -/
theorem draw_fresh_then_noop_witness :
    (tcanvas.from_cfg null_platform red_line_cfg = some red_line_canvas) ∧
    (red_line_canvas_10.draw null_platform false).1.canvas_ = some red_line_surface ∧
    (red_line_canvas_10.draw null_platform false).2 = [red_line] ∧
    (red_line_canvas_10.draw null_platform false).1.dirty_ = false ∧
    (red_line_canvas_10.draw null_platform false).1.draw null_platform false
      = ((red_line_canvas_10.draw null_platform false).1, []) :=
  ⟨by decide,
    (draw_fresh_then_noop null_platform red_line_cfg red_line_canvas red_line_canvas_10 10 10
      (Or.inr (by decide)) rfl).1,
    (draw_fresh_then_noop null_platform red_line_cfg red_line_canvas red_line_canvas_10 10 10
      (Or.inr (by decide)) rfl).2.2.1,
    (draw_fresh_then_noop null_platform red_line_cfg red_line_canvas red_line_canvas_10 10 10
      (Or.inr (by decide)) rfl).2.2.2.1,
    (draw_fresh_then_noop null_platform red_line_cfg red_line_canvas red_line_canvas_10 10 10
      (Or.inr (by decide)) rfl).2.2.2.2⟩

/-- C4 (as stated, refuted). A canvas that was constructed and drawn is clean,
and parse_cfg on it leaves the dirty flag false; also a forced draw of a new
canvas clears the flag, so the flag does not stay true until a draw without
force. -/
theorem dirty_after_parse_counterexample :
    ((tcanvas.create.draw null_platform false).1.parse_cfg null_platform
        red_line_cfg).map tcanvas.dirty_ = some false ∧
      (tcanvas.create.draw null_platform true).1.dirty_ = false := by
  decide

/-- C4 (amended). The dirty flag is true right after either constructor;
parse_cfg leaves the flag as it was, so it is true after a parse exactly when
it was true before; every call of draw, forced or not, leaves it false. -/
theorem dirty_flag_lifecycle (E : platform) (cfg : config) (c : tcanvas) (force : Bool) :
    tcanvas.create.dirty_ = true ∧
      (∀ c1 : tcanvas, tcanvas.from_cfg E cfg = some c1 → c1.dirty_ = true) ∧
      (∀ c1 : tcanvas, c.parse_cfg E cfg = some c1 → c1.dirty_ = c.dirty_) ∧
      (c.draw E force).1.dirty_ = false := by
  refine ⟨rfl, fun c1 h1 => (from_cfg_fields E cfg c1 h1).1, ?_, draw_clears_dirty E c force⟩
  intro c1 h1
  unfold tcanvas.parse_cfg at h1
  cases hp : parse_children E cfg.children [] with
  | none => simp [hp] at h1
  | some shapes =>
    simp only [hp, Option.some.injEq] at h1
    simp [← h1]

/-- Instance of the amended C4 at the red line configuration. -/
theorem dirty_flag_lifecycle_witness :
    (tcanvas.from_cfg null_platform red_line_cfg = some red_line_canvas) ∧
    red_line_canvas.dirty_ = true ∧
    (tcanvas.create.parse_cfg null_platform red_line_cfg = some red_line_canvas) ∧
    red_line_canvas.dirty_ = tcanvas.create.dirty_ :=
  ⟨by decide,
    (dirty_flag_lifecycle null_platform red_line_cfg tcanvas.create false).2.1 _ (by decide),
    by decide,
    (dirty_flag_lifecycle null_platform red_line_cfg tcanvas.create false).2.2.1 _ (by decide)⟩

/-! ## End to end: one red line -/

theorem red_line_parsed (E : platform) :
    parse_children E red_line_cfg.children [] =
      some [red_line] := by
  rfl

theorem red_line_drawn (E : platform) (vars : map_formula_callable) :
    (draw_shapes E vars [red_line] (SDL_CreateRGBSurface 10 10)).2 = red_line_surface := by
  rfl

theorem red_line_pixels : ∀ x : Nat, x < 10 → ∀ y : Nat, y < 10 →
    get_pixel red_line_surface (x : Int) (y : Int) =
      if y = 0 ∧ x ≤ 5 then 0xFFFF0000 else 0 := by
  decide

/-- C7. On every canvas of width 10 and height 10, whatever its prior state
and on every platform, draw(cfg) with the single shape line x1=0, y1=0, x2=5,
y2=0, colour "255 0 0 255" succeeds and leaves a 10 by 10 surface whose
pixels in row 0, columns 0 to 5, hold 0xFFFF0000 (opaque red under the masks
of the surface) and whose 94 other pixels hold 0. -/
theorem draw_red_line (E : platform) (c : tcanvas) (hw : c.w_ = 10) (hh : c.h_ = 10) :
    ∃ (c1 : tcanvas) (drawn : List tshape) (s : surface),
      c.draw_cfg E red_line_cfg = some (c1, drawn) ∧ c1.canvas_ = some s ∧
      s.w = 10 ∧ s.h = 10 ∧
      ∀ x : Nat, x < 10 → ∀ y : Nat, y < 10 →
        get_pixel s (x : Int) (y : Int) = if y = 0 ∧ x ≤ 5 then 0xFFFF0000 else 0 := by
  refine ⟨(({ c with shapes_ := [red_line] } : tcanvas).draw E true).1,
    (({ c with shapes_ := [red_line] } : tcanvas).draw E true).2, red_line_surface,
    ?_, ?_, rfl, rfl, red_line_pixels⟩
  · simp only [tcanvas.draw_cfg, tcanvas.parse_cfg, red_line_parsed]
  · simp only [tcanvas.draw, Bool.not_true, Bool.and_false, Bool.false_eq_true, if_false, hw, hh,
      red_line_drawn]

/-- Instance of C7 at a newly constructed canvas of 10 by 10 on the null platform. -/
theorem draw_red_line_witness :
    red_line_canvas_10.w_ = 10 ∧ red_line_canvas_10.h_ = 10 ∧
    ∃ (c1 : tcanvas) (drawn : List tshape) (s : surface),
      red_line_canvas_10.draw_cfg null_platform red_line_cfg
        = some (c1, drawn) ∧ c1.canvas_ = some s ∧
      s.w = 10 ∧ s.h = 10 ∧
      ∀ x : Nat, x < 10 → ∀ y : Nat, y < 10 →
        get_pixel s (x : Int) (y : Int) = if y = 0 ∧ x ≤ 5 then 0xFFFF0000 else 0 :=
  ⟨rfl, rfl, draw_red_line null_platform red_line_canvas_10 rfl rfl⟩

/-! ## tline::draw: the wraparound -/

/-- C10 (the code at the failing input). The line configured with x1 = -3,
x2 = -1, y1 = y2 = 0 is drawn on a 10 by 10 surface, which assigns 7 and 9 to
its members x1 and x2; drawn next on a 20 by 20 surface it writes the columns
7 to 9 of row 0, whereas the same configured line drawn on the 20 by 20
surface first writes the columns 17 to 19. -/
theorem tline_draw_overwrites_coordinates :
    ((⟨-3, 0, -1, 0, 4278190335, 0⟩ : tline).draw (SDL_CreateRGBSurface 10 10)).1
        = ⟨7, 0, 9, 0, 4278190335, 0⟩ ∧
      ((((⟨-3, 0, -1, 0, 4278190335, 0⟩ : tline).draw (SDL_CreateRGBSurface 10 10)).1.draw
          (SDL_CreateRGBSurface 20 20)).2.pixels.map (fun p => (p.x, p.y)))
        = [(9, 0), (8, 0), (7, 0)] ∧
      (((⟨-3, 0, -1, 0, 4278190335, 0⟩ : tline).draw
          (SDL_CreateRGBSurface 20 20)).2.pixels.map (fun p => (p.x, p.y)))
        = [(19, 0), (18, 0), (17, 0)] := by
  decide

/-! ## draw_line as a list of pixel writes -/

theorem bresenham_loop_pixels (colour w : Nat) (incE incNE slope : Int) (n : Nat)
    (x y d : Int) (s : surface) :
    bresenham_loop colour w incE incNE slope n x y d s =
      { s with pixels :=
          ((bresenham_points incE incNE slope n x y d).map (fun q =>
            pixel_write.mk q.1 q.2 (pixel_offset w q.1 q.2) colour)).reverse ++ s.pixels } := by
  induction n generalizing x y d s with
  | zero => simp [bresenham_loop, bresenham_points]
  | succ n ih =>
    rw [bresenham_loop, bresenham_points]
    by_cases hd : d ≤ 0
    · simp only [hd, if_true, ih, put_pixel, List.map_cons, List.reverse_cons,
        List.append_assoc, List.singleton_append]
    · simp only [hd, if_false, ih, put_pixel, List.map_cons, List.reverse_cons,
        List.append_assoc, List.singleton_append]

theorem draw_line_writes (s : surface) (colour : Nat) (x1 y1 x2 y2 : Int) :
    draw_line s colour x1 y1 x2 y2 =
      { s with pixels := (call_writes s.w ⟨colour, x1, y1, x2, y2⟩).reverse ++ s.pixels } := by
  unfold draw_line call_writes line_points
  by_cases hx : x1 = x2
  · simp only [hx, if_true, vertical_loop_pixels, List.map_map]
    rfl
  · by_cases hy : y1 = y2
    · simp only [hx, hy, if_false, if_true, horizontal_loop_pixels, List.map_map]
      rfl
    · simp only [hx, hy, if_false, bresenham_loop_pixels]

theorem run_calls_writes (calls : List line_call) (s : surface) :
    run_calls s calls =
      { s with pixels := (calls.flatMap (call_writes s.w)).reverse ++ s.pixels } := by
  induction calls generalizing s with
  | nil => simp [run_calls]
  | cons c rest ih =>
    have hstep : run_calls s (c :: rest) =
        run_calls (draw_line s c.colour c.x1 c.y1 c.x2 c.y2) rest := rfl
    rw [hstep, ih, draw_line_writes]
    simp [List.flatMap_cons]

theorem run_calls_append (s : surface) (a b : List line_call) :
    run_calls s (a ++ b) = run_calls (run_calls s a) b := by
  simp [run_calls, List.foldl_append]

theorem border_loop_eq_run_calls (colour x y w h n i : Nat) (s : surface) :
    border_loop colour x y w h n i s = run_calls s (border_calls colour x y w h n i) := by
  induction n generalizing i s with
  | zero => rfl
  | succ n ih =>
    rw [border_loop, border_calls]
    simp only [ih]
    rfl

theorem fill_loop_eq_run_calls (colour left right n i : Nat) (s : surface) :
    fill_loop colour left right n i s = run_calls s (fill_calls colour left right n i) := by
  induction n generalizing i s with
  | zero => rfl
  | succ n ih =>
    rw [fill_loop, fill_calls, ih]
    rfl

theorem trectangle_draw_eq (E : platform) (r : trectangle) (s : surface)
    (vars : map_formula_callable) :
    r.draw E s vars = (r.evaluate E vars, run_calls s (r.calls E vars)) := by
  unfold trectangle.draw trectangle.calls
  by_cases hf : r.fill_colour_ ≠ 0
  · dsimp only
    rw [if_pos hf, if_pos hf, run_calls_append, border_loop_eq_run_calls,
      fill_loop_eq_run_calls]
    rfl
  · dsimp only
    rw [if_neg hf, if_neg hf, List.append_nil, border_loop_eq_run_calls]
    rfl

theorem tline_draw_eq (l : tline) (s : surface) :
    (l.draw s).2 = run_calls s (l.calls s.w s.h) := by
  unfold tline.draw tline.calls
  simp only
  split_ifs <;> rfl

/-! ## tline::draw: the order of the endpoints -/

/-- C11. Drawing the line from P to Q and drawing the line from Q to P, on
the same canvas, give the same surface: the same pixel writes in the same
order, hence the same set of pixels. This holds for all integer endpoints,
in particular for the non-negative ones. -/
theorem tline_draw_endpoint_order (x1 y1 x2 y2 : Int) (colour thickness : Nat)
    (canvas : surface) :
    ((⟨x1, y1, x2, y2, colour, thickness⟩ : tline).draw canvas).2 =
        ((⟨x2, y2, x1, y1, colour, thickness⟩ : tline).draw canvas).2 ∧
      ∀ p : pixel_write,
        p ∈ ((⟨x1, y1, x2, y2, colour, thickness⟩ : tline).draw canvas).2.pixels ↔
        p ∈ ((⟨x2, y2, x1, y1, colour, thickness⟩ : tline).draw canvas).2.pixels := by
  have key : ((⟨x1, y1, x2, y2, colour, thickness⟩ : tline).draw canvas).2 =
      ((⟨x2, y2, x1, y1, colour, thickness⟩ : tline).draw canvas).2 := by
    unfold tline.draw
    simp only
    generalize (if x1 < 0 then x1 + (canvas.w : Int) else x1) = a1
    generalize (if x2 < 0 then x2 + (canvas.w : Int) else x2) = a2
    generalize (if y1 < 0 then y1 + (canvas.h : Int) else y1) = b1
    generalize (if y2 < 0 then y2 + (canvas.h : Int) else y2) = b2
    rcases lt_trichotomy a1 a2 with h | h | h
    · rw [if_neg (by omega), if_pos (by omega)]
    · subst h
      rw [if_neg (by omega), if_neg (by omega), draw_line_vertical_eq, draw_line_vertical_eq,
        max_comm b1 b2, min_comm b1 b2]
    · rw [if_pos (by omega), if_neg (by omega)]
  exact ⟨key, fun p => by rw [key]⟩

/-! ## read_possible_formula: the empty text and the formula -/

/-- C15. For every prior value and prior expression, read_possible_formula
called with the empty text leaves both exactly as they were. -/
theorem read_possible_formula_empty (value : Nat) (formula : String) :
    read_possible_formula "" value formula = (value, formula) := by
  rfl

/-- C16. For every text whose first character is '(' and every prior value
and prior expression, read_possible_formula sets the expression to the text
verbatim and leaves the value unchanged. -/
theorem read_possible_formula_formula (str : String) (value : Nat) (formula : String)
    (hpar : str.data.head? = some '(') :
    read_possible_formula str value formula = (value, str) := by
  have hd : str.data ≠ [] := by
    intro h
    rw [h] at hpar
    simp at hpar
  simp [read_possible_formula, hd, hpar]

/-- Instance of C16 at the text "(a+1)", prior value 7 and prior expression "(b)". -/
theorem read_possible_formula_formula_witness :
    ("(a+1)" : String).data.head? = some '(' ∧
      read_possible_formula "(a+1)" 7 "(b)" = (7, "(a+1)") :=
  ⟨by decide, read_possible_formula_formula "(a+1)" 7 "(b)" (by decide)⟩

/-! ## decode_colour: missing fields -/

theorem split_chars_append_zero (l cur : List Char) :
    split_chars (l ++ [' ', '0']) cur = split_chars l cur ++ ["0"] := by
  induction l generalizing cur with
  | nil =>
    by_cases hc : cur = []
    · subst hc
      decide
    · simp only [List.nil_append, split_chars]
      rw [if_pos (by decide), if_neg hc, if_neg (by decide), if_neg hc]
      simp
  | cons c cs ih =>
    simp only [List.cons_append, split_chars]
    by_cases hw : c.isWhitespace = true
    · by_cases hc : cur = []
      · simp [hw, hc, ih]
      · simp [hw, hc, ih]
    · simp [hw, ih]

theorem split_append_zero_fields (n : Nat) (colour : String) :
    split (append_zero_fields n colour) = split colour ++ List.replicate n "0" := by
  induction n generalizing colour with
  | zero => simp [append_zero_fields]
  | succ n ih =>
    rw [append_zero_fields, ih]
    have h : split (colour ++ " 0") = split colour ++ ["0"] := by
      unfold split
      rw [String.data_append]
      exact split_chars_append_zero colour.data []
    rw [h, List.replicate_succ]
    simp

theorem pad_fields_eq (fuel : Nat) (fields : List String) (h : 4 ≤ fields.length + fuel) :
    pad_fields fuel fields = fields ++ List.replicate (4 - fields.length) "0" := by
  induction fuel generalizing fields with
  | zero =>
    have h0 : 4 - fields.length = 0 := by omega
    simp [pad_fields, h0]
  | succ n ih =>
    rw [pad_fields]
    by_cases hl : fields.length < 4
    · rw [if_pos hl, ih _ (by simp only [List.length_append, List.length_singleton]; omega)]
      have h1 : 4 - fields.length = (4 - (fields ++ ["0"]).length) + 1 := by
        simp only [List.length_append, List.length_singleton]
        omega
      rw [h1, List.replicate_succ]
      simp
    · have h0 : 4 - fields.length = 0 := by omega
      rw [if_neg hl, h0]
      simp

/-- C14. For every colour string with fewer than four fields, decode_colour
returns the same value as for that string with as many fields "0" appended as
are missing; in particular "255 0 0" decodes as "255 0 0 0" and the empty
string decodes to 0. -/
theorem decode_colour_missing_fields (colour : String) (h : (split colour).length < 4) :
    decode_colour colour =
        decode_colour (append_zero_fields (4 - (split colour).length) colour) ∧
      decode_colour "255 0 0" = decode_colour "255 0 0 0" ∧
      decode_colour "" = 0 := by
  refine ⟨?_, by decide, by decide⟩
  unfold decode_colour
  rw [split_append_zero_fields, pad_fields_eq 4 (split colour) (by omega),
    pad_fields_eq 4 _ (by omega)]
  have hlen : 4 - (split colour ++ List.replicate (4 - (split colour).length) "0").length = 0 := by
    simp only [List.length_append, List.length_replicate]
    omega
  rw [hlen]
  simp

/-- Instance of C14 at the colour "255 0": two fields are missing. -/
theorem decode_colour_missing_fields_witness :
    (split "255 0").length < 4 ∧
      decode_colour "255 0" = decode_colour (append_zero_fields (4 - (split "255 0").length) "255 0") ∧
      append_zero_fields (4 - (split "255 0").length) "255 0" = "255 0 0 0" :=
  ⟨by decide, (decode_colour_missing_fields "255 0" (by decide)).1, by decide⟩

/-! ## ttext::draw: the destination of the blit -/

/-- C20 (as stated, refuted). For the text box at x = 70000 of width 8 and a
rendered text of width 5, x_off is 1 and x + x_off is 70001, but the origin
handed to the blit is 4465, the value the signed 16-bit field keeps; the
width field keeps 61079. -/
theorem ttext_dst_origin_counterexample :
    ((⟨70000, 0, 8, 8, 12, 0, "hello"⟩ : ttext).dst 5 3).x = 4465 ∧
      ((⟨70000, 0, 8, 8, 12, 0, "hello"⟩ : ttext).dst 5 3).x ≠
        ((70000 + (if 5 < 8 then (8 - 5) / 2 else 0) : Nat) : Int) ∧
      ((⟨70000, 0, 8, 8, 12, 0, "hello"⟩ : ttext).dst 5 3).w = 61079 := by
  decide

/-- C20 (amended). ttext::draw blits the rendered text to the rectangle `dst`,
whose origin is (x + x_off, y + y_off) converted to the signed 16-bit fields
of the rectangle, with x_off = (w - sw) / 2 when sw < w and 0 otherwise, and
y_off likewise; the origin is exactly (x + x_off, y + y_off) when these sums
are below 32768. When the text is smaller than the box, the margins on both
sides differ by at most one pixel. -/
theorem ttext_dst_origin (E : platform) (t : ttext) (canvas : surface) (sw sh : Nat) :
    t.draw E canvas =
        E.SDL_BlitSurface
          (E.get_rendered_text t.text_ t.font_size_
            ((t.colour_ >>> 24) % 256, (t.colour_ >>> 16) % 256, (t.colour_ >>> 8) % 256,
              t.colour_ % 256))
          none canvas
          (t.dst
            (E.get_rendered_text t.text_ t.font_size_
              ((t.colour_ >>> 24) % 256, (t.colour_ >>> 16) % 256, (t.colour_ >>> 8) % 256,
                t.colour_ % 256)).w
            (E.get_rendered_text t.text_ t.font_size_
              ((t.colour_ >>> 24) % 256, (t.colour_ >>> 16) % 256, (t.colour_ >>> 8) % 256,
                t.colour_ % 256)).h) ∧
      (t.dst sw sh).x =
        to_sint16 ((t.x_ + (if sw < t.w_ then (t.w_ - sw) / 2 else 0)) % 4294967296) ∧
      (t.dst sw sh).y =
        to_sint16 ((t.y_ + (if sh < t.h_ then (t.h_ - sh) / 2 else 0)) % 4294967296) ∧
      (t.x_ + (if sw < t.w_ then (t.w_ - sw) / 2 else 0) < 32768 →
        (t.dst sw sh).x = ((t.x_ + (if sw < t.w_ then (t.w_ - sw) / 2 else 0) : Nat) : Int)) ∧
      (t.y_ + (if sh < t.h_ then (t.h_ - sh) / 2 else 0) < 32768 →
        (t.dst sw sh).y = ((t.y_ + (if sh < t.h_ then (t.h_ - sh) / 2 else 0) : Nat) : Int)) ∧
      (sw < t.w_ → (t.w_ - sw) / 2 ≤ t.w_ - sw - (t.w_ - sw) / 2 ∧
        t.w_ - sw - (t.w_ - sw) / 2 ≤ (t.w_ - sw) / 2 + 1) ∧
      (sh < t.h_ → (t.h_ - sh) / 2 ≤ t.h_ - sh - (t.h_ - sh) / 2 ∧
        t.h_ - sh - (t.h_ - sh) / 2 ≤ (t.h_ - sh) / 2 + 1) := by
  have hx : (t.dst sw sh).x =
      to_sint16 ((t.x_ + (if sw < t.w_ then (t.w_ - sw) / 2 else 0)) % 4294967296) := by
    unfold ttext.dst
    by_cases h : sw < t.w_
    · simp [h, not_le.mpr h]
    · simp [h, not_lt.mp h]
  have hy : (t.dst sw sh).y =
      to_sint16 ((t.y_ + (if sh < t.h_ then (t.h_ - sh) / 2 else 0)) % 4294967296) := by
    unfold ttext.dst
    by_cases h : sh < t.h_
    · simp [h, not_le.mpr h]
    · simp [h, not_lt.mp h]
  have hfit : ∀ n : Nat, n < 32768 → to_sint16 (n % 4294967296) = (n : Int) := by
    intro n hn
    unfold to_sint16
    split_ifs <;> omega
  refine ⟨rfl, hx, hy, ?_, ?_, ?_, ?_⟩
  · intro h
    rw [hx, hfit _ h]
  · intro h
    rw [hy, hfit _ h]
  · intro _
    omega
  · intro _
    omega

/-- Instance of the amended C20: a text of 5 by 3 pixels in the box of 8 by 8
at the origin is blitted to (1, 2), with margins 1 and 2 across. -/
theorem ttext_dst_origin_witness :
    (⟨0, 0, 8, 8, 12, 0, "hello"⟩ : ttext).x_ +
        (if 5 < (⟨0, 0, 8, 8, 12, 0, "hello"⟩ : ttext).w_ then
          ((⟨0, 0, 8, 8, 12, 0, "hello"⟩ : ttext).w_ - 5) / 2 else 0) < 32768 ∧
      ((⟨0, 0, 8, 8, 12, 0, "hello"⟩ : ttext).dst 5 3).x = 1 ∧
      ((⟨0, 0, 8, 8, 12, 0, "hello"⟩ : ttext).dst 5 3).y = 2 ∧
      (5 < (⟨0, 0, 8, 8, 12, 0, "hello"⟩ : ttext).w_) ∧
      ((8 - 5) / 2 ≤ 8 - 5 - (8 - 5) / 2 ∧ 8 - 5 - (8 - 5) / 2 ≤ (8 - 5) / 2 + 1) :=
  ⟨by decide,
    (ttext_dst_origin null_platform ⟨0, 0, 8, 8, 12, 0, "hello"⟩ (SDL_CreateRGBSurface 10 10)
      5 3).2.2.2.1 (by decide),
    (ttext_dst_origin null_platform ⟨0, 0, 8, 8, 12, 0, "hello"⟩ (SDL_CreateRGBSurface 10 10)
      5 3).2.2.2.2.1 (by decide),
    by decide,
    (ttext_dst_origin null_platform ⟨0, 0, 8, 8, 12, 0, "hello"⟩ (SDL_CreateRGBSurface 10 10)
      5 3).2.2.2.2.2.1 (by decide)⟩

/-! ## trectangle: the border colour, the calls of draw_line -/

theorem fill_calls_rows (colour left right n i : Nat) :
    ∀ c ∈ fill_calls colour left right n i, c.colour = colour ∧ c.y1 = c.y2 := by
  induction n generalizing i with
  | zero => simp [fill_calls]
  | succ n ih =>
    intro c hc
    rw [fill_calls, List.mem_cons] at hc
    rcases hc with rfl | hc
    · exact ⟨rfl, rfl⟩
    · exact ih _ c hc

theorem from_cfg_border_thickness (cfg : vconfig)
    (h : decode_colour (cfg.get "border_colour") = 0) :
    (trectangle.from_cfg cfg).border_thickness_ = 0 := by
  simp [trectangle.from_cfg, h]

/-- C13. For every rectangle configuration whose border_colour is unset or
decodes to 0, whatever border_thickness it gives, the constructed rectangle
has border thickness 0; its draw runs the border loop zero times, so that the
canvas comes out of the loop unchanged, and every call of draw_line it makes
is a row of the fill, in the fill colour; without a fill colour the draw
leaves the canvas as it was. -/
theorem rectangle_without_border_colour (E : platform) (cfg : vconfig) (canvas : surface)
    (vars : map_formula_callable)
    (h : cfg.get "border_colour" = "" ∨ decode_colour (cfg.get "border_colour") = 0) :
    (trectangle.from_cfg cfg).border_thickness_ = 0 ∧
      border_loop (trectangle.from_cfg cfg).border_colour_
        ((trectangle.from_cfg cfg).evaluate E vars).x_
        ((trectangle.from_cfg cfg).evaluate E vars).y_
        ((trectangle.from_cfg cfg).evaluate E vars).w_
        ((trectangle.from_cfg cfg).evaluate E vars).h_
        (trectangle.from_cfg cfg).border_thickness_ 0 canvas = canvas ∧
      ((trectangle.from_cfg cfg).draw E canvas vars).2 =
        run_calls canvas ((trectangle.from_cfg cfg).calls E vars) ∧
      (∀ c ∈ (trectangle.from_cfg cfg).calls E vars,
        c.colour = (trectangle.from_cfg cfg).fill_colour_ ∧ c.y1 = c.y2) ∧
      ((trectangle.from_cfg cfg).fill_colour_ = 0 →
        ((trectangle.from_cfg cfg).draw E canvas vars).2 = canvas) := by
  have h0 : decode_colour (cfg.get "border_colour") = 0 := by
    rcases h with h | h
    · rw [h]
      decide
    · exact h
  have ht := from_cfg_border_thickness cfg h0
  have hcalls : (trectangle.from_cfg cfg).calls E vars =
      (if (trectangle.from_cfg cfg).fill_colour_ ≠ 0 then
        fill_calls (trectangle.from_cfg cfg).fill_colour_
          ((((trectangle.from_cfg cfg).evaluate E vars).x_ + 0) % 4294967296)
          (to_unsigned ((((((trectangle.from_cfg cfg).evaluate E vars).x_ + 0) % 4294967296 : Nat) : Int)
            + ((((trectangle.from_cfg cfg).evaluate E vars).w_ : Nat) : Int) - 2 * ((0 : Nat) : Int) - 1))
          (to_unsigned ((((((trectangle.from_cfg cfg).evaluate E vars).y_ + 0) % 4294967296 : Nat) : Int)
            + ((((trectangle.from_cfg cfg).evaluate E vars).h_ : Nat) : Int) - 2 * ((0 : Nat) : Int))
            - (((trectangle.from_cfg cfg).evaluate E vars).y_ + 0) % 4294967296)
          ((((trectangle.from_cfg cfg).evaluate E vars).y_ + 0) % 4294967296)
      else []) := by
    unfold trectangle.calls
    rw [ht]
    rfl
  refine ⟨ht, ?_, ?_, ?_, ?_⟩
  · rw [ht]
    rfl
  · rw [trectangle_draw_eq]
  · intro c hc
    rw [hcalls] at hc
    by_cases hf : (trectangle.from_cfg cfg).fill_colour_ ≠ 0
    · rw [if_pos hf] at hc
      exact fill_calls_rows _ _ _ _ _ c hc
    · rw [if_neg hf] at hc
      simp at hc
  · intro hf
    rw [trectangle_draw_eq, hcalls, if_neg (not_not.mpr hf)]
    rfl

/-- Instance of C13: a configuration with border_thickness 2, no
border_colour and a blue fill. -/
theorem rectangle_without_border_colour_witness :
    (borderless_cfg.get "border_colour" = "" ∨
        decode_colour (borderless_cfg.get "border_colour") = 0) ∧
      lexical_cast_default_unsigned (borderless_cfg.get "border_thickness") = 2 ∧
      (trectangle.from_cfg borderless_cfg).border_thickness_ = 0 ∧
      (∀ c ∈ (trectangle.from_cfg borderless_cfg).calls null_platform [],
        c.colour = (trectangle.from_cfg borderless_cfg).fill_colour_ ∧ c.y1 = c.y2) :=
  ⟨by decide, by decide,
    (rectangle_without_border_colour null_platform borderless_cfg (SDL_CreateRGBSurface 10 10) []
      (by decide)).1,
    (rectangle_without_border_colour null_platform borderless_cfg (SDL_CreateRGBSurface 10 10) []
      (by decide)).2.2.2.1⟩

theorem evaluate_literal (E : platform) (r : trectangle) (vars : map_formula_callable)
    (hx : r.x_formula_ = "") (hy : r.y_formula_ = "") (hw : r.w_formula_ = "")
    (hh : r.h_formula_ = "") :
    r.evaluate E vars = r := by
  cases r
  simp only at hx hy hw hh
  subst hx hy hw hh
  simp [trectangle.evaluate]

theorem call_writes_coords (w : Nat) (c : line_call) :
    (call_writes w c).map (fun p => (p.x, p.y, p.colour)) =
      (line_points c.x1 c.y1 c.x2 c.y2).map (fun q => (q.1, q.2, map_colour c.colour)) := by
  simp [call_writes, List.map_map, Function.comp]

theorem calls_writes_coords (w : Nat) (calls : List line_call) :
    ((calls.flatMap (call_writes w)).reverse).map (fun p => (p.x, p.y, p.colour)) =
      (calls.flatMap (fun c =>
        (line_points c.x1 c.y1 c.x2 c.y2).map (fun q => (q.1, q.2, map_colour c.colour)))).reverse := by
  rw [List.map_reverse]
  congr 1
  induction calls with
  | nil => rfl
  | cons c rest ih =>
    simp only [List.flatMap_cons, List.map_append, ih, call_writes_coords]

/-- C17. For every rectangle with literal x, y, w and h and any two canvases
(surfaces of any two sizes, with the variables bound for each), the draw makes
the same calls of draw_line with the same endpoints on both, leaves the
members of the rectangle as configured, and writes the same sequence of pixel
coordinates and colours: the size of the canvas enters nowhere. -/
theorem trectangle_no_wraparound (E : platform) (r : trectangle) (s1 s2 : surface)
    (vars1 vars2 : map_formula_callable)
    (hx : r.x_formula_ = "") (hy : r.y_formula_ = "") (hw : r.w_formula_ = "")
    (hh : r.h_formula_ = "") :
    (r.draw E s1 vars1).2 = run_calls s1 (r.calls E vars1) ∧
      (r.draw E s2 vars2).2 = run_calls s2 (r.calls E vars2) ∧
      r.calls E vars1 = r.calls E vars2 ∧
      (r.draw E s1 vars1).1 = r ∧ (r.draw E s2 vars2).1 = r ∧
      ∃ W1 W2 : List pixel_write,
        (r.draw E s1 vars1).2 = { s1 with pixels := W1 ++ s1.pixels } ∧
        (r.draw E s2 vars2).2 = { s2 with pixels := W2 ++ s2.pixels } ∧
        W1.map (fun p => (p.x, p.y, p.colour)) = W2.map (fun p => (p.x, p.y, p.colour)) := by
  have e1 := evaluate_literal E r vars1 hx hy hw hh
  have e2 := evaluate_literal E r vars2 hx hy hw hh
  have hc : r.calls E vars1 = r.calls E vars2 := by
    unfold trectangle.calls
    rw [e1, e2]
  refine ⟨by rw [trectangle_draw_eq], by rw [trectangle_draw_eq], hc, ?_, ?_, ?_⟩
  · rw [trectangle_draw_eq, e1]
  · rw [trectangle_draw_eq, e2]
  · refine ⟨((r.calls E vars1).flatMap (call_writes s1.w)).reverse,
      ((r.calls E vars2).flatMap (call_writes s2.w)).reverse, ?_, ?_, ?_⟩
    · rw [trectangle_draw_eq]
      exact run_calls_writes _ _
    · rw [trectangle_draw_eq]
      exact run_calls_writes _ _
    · rw [calls_writes_coords, calls_writes_coords, hc]

/-- Instance of C17: the sample rectangle drawn on a surface of 10 by 10 and
on one of 20 by 20, with the width and height variables of each. -/
theorem trectangle_no_wraparound_witness :
    sample_rectangle.x_formula_ = "" ∧
      sample_rectangle.calls null_platform
          [("height", variant.int 10), ("width", variant.int 10)] =
        sample_rectangle.calls null_platform
          [("height", variant.int 20), ("width", variant.int 20)] ∧
      (sample_rectangle.draw null_platform (SDL_CreateRGBSurface 10 10)
          [("height", variant.int 10), ("width", variant.int 10)]).1 = sample_rectangle :=
  ⟨rfl,
    (trectangle_no_wraparound null_platform sample_rectangle (SDL_CreateRGBSurface 10 10)
      (SDL_CreateRGBSurface 20 20) [("height", variant.int 10), ("width", variant.int 10)]
      [("height", variant.int 20), ("width", variant.int 20)] rfl rfl rfl rfl).2.2.1,
    (trectangle_no_wraparound null_platform sample_rectangle (SDL_CreateRGBSurface 10 10)
      (SDL_CreateRGBSurface 20 20) [("height", variant.int 10), ("width", variant.int 10)]
      [("height", variant.int 20), ("width", variant.int 20)] rfl rfl rfl rfl).2.2.2.1⟩

/-! ## The canvas: the order of painting -/

theorem shape_draw_writes (E : platform) (vars : map_formula_callable) (sh : tshape)
    (hsh : sh.type = "line" ∨ sh.type = "rectangle") (s : surface) :
    (sh.draw E s vars).2 =
      { s with pixels := (sh.draw E (SDL_CreateRGBSurface s.w s.h) vars).2.pixels ++ s.pixels } := by
  cases sh with
  | line l =>
    simp only [tshape.draw]
    rw [tline_draw_eq, tline_draw_eq, run_calls_writes, run_calls_writes]
    simp [SDL_CreateRGBSurface]
  | rectangle r =>
    simp only [tshape.draw]
    rw [trectangle_draw_eq, trectangle_draw_eq, run_calls_writes, run_calls_writes]
    simp [SDL_CreateRGBSurface]
  | image m => simp [tshape.type] at hsh
  | text t => simp [tshape.type] at hsh

theorem draw_shapes_pixels (E : platform) (vars : map_formula_callable) (l : List tshape)
    (hl : ∀ sh ∈ l, sh.type = "line" ∨ sh.type = "rectangle") (s : surface) :
    (draw_shapes E vars l s).2 =
      { s with pixels :=
          l.reverse.flatMap (fun sh => (sh.draw E (SDL_CreateRGBSurface s.w s.h) vars).2.pixels)
            ++ s.pixels } := by
  induction l generalizing s with
  | nil => simp [draw_shapes]
  | cons sh rest ih =>
    rw [draw_shapes]
    simp only
    rw [ih (fun t ht => hl t (List.mem_cons_of_mem _ ht)),
      shape_draw_writes E vars sh (hl sh (List.mem_cons_self _ _)) s]
    simp [List.flatMap_append]

theorem get_pixel_skip (w h : Nat) (A B : List pixel_write) (x y : Int)
    (hA : A.any (fun p => p.offset = pixel_offset w x y) = false) :
    get_pixel ⟨w, h, A ++ B⟩ x y = get_pixel ⟨w, h, B⟩ x y := by
  have hnone : A.find? (fun p => decide (p.offset = pixel_offset w x y)) = none := by
    rw [List.find?_eq_none]
    intro p hp
    rw [List.any_eq_false] at hA
    exact hA p hp
  simp only [get_pixel, List.find?_append, hnone, Option.none_or]

theorem get_pixel_first (w h : Nat) (A B : List pixel_write) (x y : Int)
    (hA : A.any (fun p => p.offset = pixel_offset w x y) = true) :
    get_pixel ⟨w, h, A ++ B⟩ x y = get_pixel ⟨w, h, A⟩ x y := by
  have hsome : (A.find? (fun p => decide (p.offset = pixel_offset w x y))).isSome = true := by
    rw [List.find?_isSome]
    rw [List.any_eq_true] at hA
    exact hA
  obtain ⟨p, hp⟩ := Option.isSome_iff_exists.mp hsome
  simp only [get_pixel, List.find?_append, hp]
  rfl

theorem draw_performed (E : platform) (c : tcanvas) (force : Bool)
    (hdraw : c.dirty_ = true ∨ force = true) :
    (c.draw E force).1.canvas_ =
      some (draw_shapes E (c.draw E force).1.variables_ c.shapes_
        (SDL_CreateRGBSurface c.w_ c.h_)).2 := by
  unfold tcanvas.draw
  have hcond : ¬ ((!c.dirty_ && !force) = true) := by
    rcases hdraw with h | h <;> simp [h]
  rw [if_neg hcond]

/-- C12. After a draw that is performed (the canvas is dirty or the draw is
forced) on a canvas whose shapes are lines and rectangles, every pixel of the
surface holds the value written by the last shape, in list order, that writes
to that pixel (the value this shape leaves there when it draws alone on a new
surface), and 0 when no shape writes to it. -/
theorem draw_paints_in_list_order (E : platform) (c : tcanvas) (force : Bool)
    (hdraw : c.dirty_ = true ∨ force = true)
    (hshapes : ∀ sh ∈ c.shapes_, sh.type = "line" ∨ sh.type = "rectangle") :
    ∃ s : surface, (c.draw E force).1.canvas_ = some s ∧ s.w = c.w_ ∧ s.h = c.h_ ∧
      ∀ x y : Int,
        ((∀ sh ∈ c.shapes_,
            sh.writes_pixel E (c.draw E force).1.variables_ c.w_ c.h_ x y = false) →
          get_pixel s x y = 0) ∧
        (∀ (before after : List tshape) (sh : tshape), c.shapes_ = before ++ sh :: after →
          sh.writes_pixel E (c.draw E force).1.variables_ c.w_ c.h_ x y = true →
          (∀ t ∈ after,
            t.writes_pixel E (c.draw E force).1.variables_ c.w_ c.h_ x y = false) →
          get_pixel s x y =
            get_pixel (sh.draw E (SDL_CreateRGBSurface c.w_ c.h_)
              (c.draw E force).1.variables_).2 x y) := by
  refine ⟨_, draw_performed E c force hdraw, ?_, ?_, ?_⟩
  · rw [draw_shapes_pixels E _ c.shapes_ hshapes]
    rfl
  · rw [draw_shapes_pixels E _ c.shapes_ hshapes]
    rfl
  · intro x y
    generalize (c.draw E force).1.variables_ = vars
    rw [draw_shapes_pixels E vars c.shapes_ hshapes]
    simp only [SDL_CreateRGBSurface, List.append_nil]
    constructor
    · intro hnone
      have hall : (c.shapes_.reverse.flatMap (fun sh =>
          (sh.draw E ⟨c.w_, c.h_, []⟩ vars).2.pixels)).any
          (fun p => p.offset = pixel_offset c.w_ x y) = false := by
        rw [List.any_eq_false]
        intro p hp
        rw [List.mem_flatMap] at hp
        obtain ⟨sh, hsh, hp⟩ := hp
        have := hnone sh (List.mem_reverse.mp hsh)
        simp only [tshape.writes_pixel, SDL_CreateRGBSurface, List.any_eq_false] at this
        exact this p hp
      have := get_pixel_skip c.w_ c.h_ _ [] x y hall
      rw [List.append_nil] at this
      rw [this]
      rfl
    · intro before after sh hsplit hwrites hafter
      rw [hsplit]
      simp only [List.reverse_append, List.reverse_cons, List.append_assoc,
        List.singleton_append, List.flatMap_append, List.flatMap_cons]
      have hskip : (after.reverse.flatMap (fun sh =>
          (sh.draw E ⟨c.w_, c.h_, []⟩ vars).2.pixels)).any
          (fun p => p.offset = pixel_offset c.w_ x y) = false := by
        rw [List.any_eq_false]
        intro p hp
        rw [List.mem_flatMap] at hp
        obtain ⟨t, ht, hp⟩ := hp
        have := hafter t (List.mem_reverse.mp ht)
        simp only [tshape.writes_pixel, SDL_CreateRGBSurface, List.any_eq_false] at this
        exact this p hp
      rw [get_pixel_skip c.w_ c.h_ _ _ x y hskip]
      have hfirst : (sh.draw E ⟨c.w_, c.h_, []⟩ vars).2.pixels.any
          (fun p => p.offset = pixel_offset c.w_ x y) = true := hwrites
      rw [get_pixel_first c.w_ c.h_ _ _ x y hfirst]
      have hsurf : (sh.draw E ⟨c.w_, c.h_, []⟩ vars).2 =
          ⟨c.w_, c.h_, (sh.draw E ⟨c.w_, c.h_, []⟩ vars).2.pixels⟩ := by
        have hsh : sh.type = "line" ∨ sh.type = "rectangle" :=
          hshapes sh (by rw [hsplit]; simp)
        have := shape_draw_writes E vars sh hsh ⟨c.w_, c.h_, []⟩
        rw [this]
      rw [← hsurf]

/-- Instance of C12: on the canvas with the sample rectangle and the red line
over it, the pixel (2, 2) holds the red of the line, drawn last, the pixel
(1, 1) the green of the border of the rectangle, and the pixel (9, 9) holds 0. -/
theorem draw_paints_in_list_order_witness :
    (two_shapes_canvas.dirty_ = true ∨ false = true) ∧
    (∀ sh ∈ two_shapes_canvas.shapes_, sh.type = "line" ∨ sh.type = "rectangle") ∧
    ∃ s : surface, (two_shapes_canvas.draw null_platform false).1.canvas_ = some s ∧
      get_pixel s 2 2 = 4294901760 ∧ get_pixel s 1 1 = 4278255360 ∧ get_pixel s 9 9 = 0 := by
  refine ⟨by decide, by decide, ?_⟩
  obtain ⟨s, hs, _, _, hpix⟩ :=
    draw_paints_in_list_order null_platform two_shapes_canvas false (by decide) (by decide)
  refine ⟨s, hs, ?_, ?_, ?_⟩
  · rw [(hpix 2 2).2 [tshape.rectangle sample_rectangle] []
      (tshape.line ⟨0, 2, 5, 2, 4278190335, 0⟩) rfl (by decide) (by decide)]
    decide
  · rw [(hpix 1 1).2 [] [tshape.line ⟨0, 2, 5, 2, 4278190335, 0⟩]
      (tshape.rectangle sample_rectangle) rfl (by decide) (by decide)]
    decide
  · exact (hpix 9 9).1 (by decide)

/-! ## trectangle::draw: the border ring and the fill -/

theorem to_int_to_unsigned (v : Int) (h1 : -2147483648 ≤ v) (h2 : v < 2147483648) :
    to_int (to_unsigned v) = v := by
  unfold to_int to_unsigned
  split_ifs <;> omega

theorem to_int_of_lt (n : Nat) (h : n < 2147483648) : to_int n = (n : Int) := by
  unfold to_int
  split_ifs <;> omega

theorem mem_line_points_horizontal (x1 x2 y px py : Int) :
    (px, py) ∈ line_points x1 y x2 y ↔ py = y ∧ x1 ≤ px ∧ px ≤ x2 := by
  unfold line_points
  by_cases hx : x1 = x2
  · subst hx
    have h1 : (y + 1 - y).toNat = 1 := by omega
    have h2 : List.range 1 = [0] := rfl
    simp only [if_true, lt_self_iff_false, if_false, h1, h2, List.map_cons,
      List.map_nil, List.mem_singleton, Prod.mk.injEq, Nat.cast_zero, add_zero]
    constructor
    · rintro ⟨h3, h4⟩
      omega
    · intro h3
      exact ⟨by omega, by omega⟩
  · simp only [hx, if_false, if_true, List.mem_map, List.mem_range, Prod.mk.injEq]
    constructor
    · rintro ⟨k, hk, h1, h2⟩
      omega
    · intro h
      exact ⟨(px - x1).toNat, by omega, by omega, by omega⟩

theorem mem_line_points_vertical (x y1 y2 px py : Int) :
    (px, py) ∈ line_points x y1 x y2 ↔ px = x ∧ min y1 y2 ≤ py ∧ py ≤ max y1 y2 := by
  unfold line_points
  simp only [if_true, List.mem_map, List.mem_range, Prod.mk.injEq]
  by_cases hy : y2 < y1
  · simp only [hy, if_true]
    constructor
    · rintro ⟨k, hk, h1, h2⟩
      omega
    · intro h
      exact ⟨(py - y2).toNat, by omega, by omega, by omega⟩
  · simp only [hy, if_false]
    constructor
    · rintro ⟨k, hk, h1, h2⟩
      omega
    · intro h
      exact ⟨(py - y1).toNat, by omega, by omega, by omega⟩

theorem written_at_calls (w : Nat) (calls : List line_call) (px py : Int) :
    written_at ((calls.flatMap (call_writes w)).reverse) px py ↔
      ∃ c ∈ calls, (px, py) ∈ line_points c.x1 c.y1 c.x2 c.y2 := by
  unfold written_at
  constructor
  · rintro ⟨p, hp, rfl, rfl⟩
    rw [List.mem_reverse, List.mem_flatMap] at hp
    obtain ⟨c, hc, hp⟩ := hp
    simp only [call_writes, List.mem_map] at hp
    obtain ⟨q, hq, rfl⟩ := hp
    exact ⟨c, hc, hq⟩
  · rintro ⟨c, hc, hq⟩
    refine ⟨⟨px, py, pixel_offset w px py, map_colour c.colour⟩, ?_, rfl, rfl⟩
    rw [List.mem_reverse, List.mem_flatMap]
    refine ⟨c, hc, ?_⟩
    simp only [call_writes, List.mem_map]
    exact ⟨(px, py), hq, rfl⟩

theorem calls_writes_colour (w : Nat) (calls : List line_call) (colour : Nat)
    (hc : ∀ c ∈ calls, c.colour = colour) :
    ∀ p ∈ (calls.flatMap (call_writes w)).reverse,
      p.colour = map_colour colour ∧ p.offset = pixel_offset w p.x p.y := by
  intro p hp
  rw [List.mem_reverse, List.mem_flatMap] at hp
  obtain ⟨c, hcm, hp⟩ := hp
  simp only [call_writes, List.mem_map] at hp
  obtain ⟨q, _, rfl⟩ := hp
  exact ⟨by rw [hc c hcm], rfl⟩

/-- The four calls of round `i` of the border loop, with the corners written
as integers. -/
theorem border_calls_round (colour x y w h t : Nat) (hw : 2 * t ≤ w) (hh : 2 * t ≤ h)
    (hx : x + w < 2147483648) (hy : y + h < 2147483648) (n i : Nat) (hi : i + n ≤ t) :
    border_calls colour x y w h n i =
      (List.range n).flatMap (fun k : Nat =>
        [⟨colour, (x : Int) + (i + k : Nat), (y : Int) + (i + k : Nat),
            (x : Int) + w - (i + k : Nat) - 1, (y : Int) + (i + k : Nat)⟩,
          ⟨colour, (x : Int) + w - (i + k : Nat) - 1, (y : Int) + (i + k : Nat),
            (x : Int) + w - (i + k : Nat) - 1, (y : Int) + h - (i + k : Nat) - 1⟩,
          ⟨colour, (x : Int) + (i + k : Nat), (y : Int) + h - (i + k : Nat) - 1,
            (x : Int) + w - (i + k : Nat) - 1, (y : Int) + h - (i + k : Nat) - 1⟩,
          ⟨colour, (x : Int) + (i + k : Nat), (y : Int) + (i + k : Nat),
            (x : Int) + (i + k : Nat), (y : Int) + h - (i + k : Nat) - 1⟩]) := by
  induction n generalizing i with
  | zero => simp [border_calls]
  | succ n ih =>
    rw [border_calls, ih (i + 1) (by omega), List.range_succ_eq_map, List.flatMap_cons,
      List.flatMap_map]
    have hl : to_int ((x + i) % 4294967296) = (x : Int) + i := by
      rw [to_int_of_lt _ (by omega)]
      omega
    have ht : to_int ((y + i) % 4294967296) = (y : Int) + i := by
      rw [to_int_of_lt _ (by omega)]
      omega
    have hr : to_int (to_unsigned ((((x + i) % 4294967296 : Nat) : Int) + (w : Int)
        - ((i : Int) * 2) - 1)) = (x : Int) + w - i - 1 := by
      rw [to_int_to_unsigned _ (by omega) (by omega)]
      omega
    have hb : to_int (to_unsigned ((((y + i) % 4294967296 : Nat) : Int) + (h : Int)
        - ((i : Int) * 2) - 1)) = (y : Int) + h - i - 1 := by
      rw [to_int_to_unsigned _ (by omega) (by omega)]
      omega
    simp only [hl, ht, hr, hb, Nat.add_zero, List.cons_append, List.nil_append,
      List.singleton_append]
    congr 5
    funext k
    simp only [Nat.succ_eq_add_one]
    rw [show i + 1 + k = i + (k + 1) by omega]

theorem border_written_outline (colour x y w h t cw : Nat) (hw : 2 * t ≤ w) (hh : 2 * t ≤ h)
    (hx : x + w < 2147483648) (hy : y + h < 2147483648) (px py : Int) :
    written_at (((border_calls colour x y w h t 0).flatMap (call_writes cw)).reverse) px py ↔
      ∃ i : Nat, i < t ∧ on_outline x y w h i px py := by
  rw [written_at_calls, border_calls_round colour x y w h t hw hh hx hy t 0 (by omega)]
  simp only [List.mem_flatMap, List.mem_range, List.mem_cons, List.mem_singleton,
    List.not_mem_nil, or_false, Nat.zero_add]
  constructor
  · rintro ⟨c, ⟨k, hk, hc⟩, hq⟩
    refine ⟨k, hk, ?_⟩
    unfold on_outline
    rcases hc with rfl | rfl | rfl | rfl
    · dsimp only at hq
      rw [mem_line_points_horizontal] at hq
      omega
    · dsimp only at hq
      rw [mem_line_points_vertical] at hq
      omega
    · dsimp only at hq
      rw [mem_line_points_horizontal] at hq
      omega
    · dsimp only at hq
      rw [mem_line_points_vertical] at hq
      omega
  · rintro ⟨i, hi, hout⟩
    unfold on_outline at hout
    obtain ⟨hin, hside⟩ := hout
    rcases hside with hs | hs | hs | hs
    · refine ⟨_, ⟨i, hi, Or.inr (Or.inr (Or.inr rfl))⟩, ?_⟩
      dsimp only
      rw [mem_line_points_vertical]
      omega
    · refine ⟨_, ⟨i, hi, Or.inr (Or.inl rfl)⟩, ?_⟩
      dsimp only
      rw [mem_line_points_vertical]
      omega
    · refine ⟨_, ⟨i, hi, Or.inl rfl⟩, ?_⟩
      dsimp only
      rw [mem_line_points_horizontal]
      omega
    · refine ⟨_, ⟨i, hi, Or.inr (Or.inr (Or.inl rfl))⟩, ?_⟩
      dsimp only
      rw [mem_line_points_horizontal]
      omega

theorem outline_iff_ring (x y w h t : Nat) (hw : 2 * t ≤ w) (hh : 2 * t ≤ h) (px py : Int) :
    (∃ i : Nat, i < t ∧ on_outline x y w h i px py) ↔
      (in_box x y w h px py ∧ ¬ in_inner_box x y w h t px py) := by
  unfold on_outline in_box in_inner_box
  constructor
  · rintro ⟨i, hi, hin, hside⟩
    omega
  · rintro ⟨hbox, hinner⟩
    refine ⟨(min (min (px - x) ((x : Int) + w - 1 - px))
      (min (py - y) ((y : Int) + h - 1 - py))).toNat, ?_, ?_, ?_⟩
    · omega
    · omega
    · omega

theorem mem_fill_calls (colour left right n i : Nat) (c : line_call) :
    c ∈ fill_calls colour left right n i ↔
      ∃ k : Nat, k < n ∧
        c = ⟨colour, to_int left, to_int (i + k), to_int right, to_int (i + k)⟩ := by
  induction n generalizing i with
  | zero => simp [fill_calls]
  | succ n ih =>
    rw [fill_calls, List.mem_cons, ih]
    constructor
    · rintro (rfl | ⟨k, hk, rfl⟩)
      · exact ⟨0, by omega, rfl⟩
      · exact ⟨k + 1, by omega, by rw [show i + 1 + k = i + (k + 1) by omega]⟩
    · rintro ⟨k, hk, rfl⟩
      cases k with
      | zero => exact Or.inl rfl
      | succ k => exact Or.inr ⟨k, by omega, by rw [show i + 1 + k = i + (k + 1) by omega]⟩

theorem fill_written_inner_box (colour x y w h t cw : Nat) (hw : 2 * t ≤ w) (hh : 2 * t ≤ h)
    (hx : x + w < 2147483648) (hy : y + h < 2147483648) (px py : Int) :
    written_at (((fill_calls colour ((x + t) % 4294967296)
        (to_unsigned ((((x + t) % 4294967296 : Nat) : Int) + (w : Int) - (2 * (t : Int)) - 1))
        (to_unsigned ((((y + t) % 4294967296 : Nat) : Int) + (h : Int) - (2 * (t : Int)))
          - (y + t) % 4294967296)
        ((y + t) % 4294967296)).flatMap (call_writes cw)).reverse) px py ↔
      in_inner_box x y w h t px py := by
  rw [written_at_calls]
  have hl : to_int ((x + t) % 4294967296) = (x : Int) + t := by
    rw [to_int_of_lt _ (by omega)]
    omega
  have hr : to_int (to_unsigned ((((x + t) % 4294967296 : Nat) : Int) + (w : Int)
      - (2 * (t : Int)) - 1)) = (x : Int) + w - t - 1 := by
    rw [to_int_to_unsigned _ (by omega) (by omega)]
    omega
  have hn : to_unsigned ((((y + t) % 4294967296 : Nat) : Int) + (h : Int) - (2 * (t : Int)))
      - (y + t) % 4294967296 = h - 2 * t := by
    unfold to_unsigned
    omega
  have htop : (y + t) % 4294967296 = y + t := by omega
  rw [hn, htop]
  simp only [mem_fill_calls, hl, hr]
  unfold in_inner_box
  constructor
  · rintro ⟨c, ⟨k, hk, rfl⟩, hq⟩
    dsimp only at hq
    rw [to_int_of_lt _ (by omega), mem_line_points_horizontal] at hq
    omega
  · intro hin
    refine ⟨_, ⟨(py - y - t).toNat, by omega, rfl⟩, ?_⟩
    dsimp only
    rw [to_int_of_lt _ (by omega), mem_line_points_horizontal]
    omega

/-- C18. For all x, y, w, h and thickness t with 2t ≤ w, 2t ≤ h and x + w,
y + h below 2^31, the border loop of trectangle::draw makes, for every i < t,
the four calls along the outline with corners (x+i, y+i) and (x+w-i-1,
y+h-i-1); the pixels it writes, all in the border colour, are exactly those
on one of the t outlines, which are exactly those of the box [x, x+w) x
[y, y+h) outside the inner box [x+t, x+w-t) x [y+t, y+h-t). -/
theorem border_loop_ring (colour x y w h t : Nat) (canvas : surface)
    (hw : 2 * t ≤ w) (hh : 2 * t ≤ h)
    (hx : x + w < 2147483648) (hy : y + h < 2147483648) :
    ∃ written : List pixel_write,
      border_loop colour x y w h t 0 canvas =
        { canvas with pixels := written ++ canvas.pixels } ∧
      (∀ p ∈ written, p.colour = map_colour colour ∧
        p.offset = pixel_offset canvas.w p.x p.y) ∧
      (∀ px py : Int, written_at written px py ↔
        ∃ i : Nat, i < t ∧ on_outline x y w h i px py) ∧
      (∀ px py : Int, written_at written px py ↔
        (in_box x y w h px py ∧ ¬ in_inner_box x y w h t px py)) := by
  refine ⟨((border_calls colour x y w h t 0).flatMap (call_writes canvas.w)).reverse,
    ?_, ?_, ?_, ?_⟩
  · rw [border_loop_eq_run_calls, run_calls_writes]
  · apply calls_writes_colour
    intro c hc
    rw [border_calls_round colour x y w h t hw hh hx hy t 0 (by omega)] at hc
    simp only [List.mem_flatMap, List.mem_range, List.mem_cons, List.mem_singleton,
      List.not_mem_nil, or_false] at hc
    obtain ⟨k, _, rfl | rfl | rfl | rfl⟩ := hc <;> rfl
  · intro px py
    exact border_written_outline colour x y w h t canvas.w hw hh hx hy px py
  · intro px py
    rw [border_written_outline colour x y w h t canvas.w hw hh hx hy px py]
    exact outline_iff_ring x y w h t hw hh px py

/-- Instance of C18: the outline of thickness 1 of the box of 4 by 3 at (1, 1),
drawn on a new surface of 10 by 10. -/
theorem border_loop_ring_witness :
    2 * 1 ≤ 4 ∧ 2 * 1 ≤ 3 ∧ 1 + 4 < 2147483648 ∧ 1 + 3 < 2147483648 ∧
    ∃ written : List pixel_write,
      border_loop 16711935 1 1 4 3 1 0 (SDL_CreateRGBSurface 10 10) =
        { SDL_CreateRGBSurface 10 10 with
          pixels := written ++ (SDL_CreateRGBSurface 10 10).pixels } ∧
      (∀ p ∈ written, p.colour = map_colour 16711935 ∧
        p.offset = pixel_offset (SDL_CreateRGBSurface 10 10).w p.x p.y) ∧
      (∀ px py : Int, written_at written px py ↔
        ∃ i : Nat, i < 1 ∧ on_outline 1 1 4 3 i px py) ∧
      (∀ px py : Int, written_at written px py ↔
        (in_box 1 1 4 3 px py ∧ ¬ in_inner_box 1 1 4 3 1 px py)) :=
  ⟨by decide, by decide, by decide, by decide,
    border_loop_ring 16711935 1 1 4 3 1 (SDL_CreateRGBSurface 10 10)
      (by decide) (by decide) (by decide) (by decide)⟩

/-- C19 (as stated, refuted). The rectangle at x = 2147483647, y = 0 with
w = 2, h = 1, no border and a fill colour satisfies 2t ≤ w and 2t ≤ h; the
right end of its fill row, 2147483648, is negative as an int, so the row loop
of draw_line does not run and the draw writes nothing, although the inner box
holds the pixel (2147483647, 0). -/
theorem rectangle_fill_inner_box_counterexample :
    2 * (⟨2147483647, 0, 2, 1, "", "", "", "", 0, 0, 65535⟩ : trectangle).border_thickness_ ≤
        (⟨2147483647, 0, 2, 1, "", "", "", "", 0, 0, 65535⟩ : trectangle).w_ ∧
      2 * (⟨2147483647, 0, 2, 1, "", "", "", "", 0, 0, 65535⟩ : trectangle).border_thickness_ ≤
        (⟨2147483647, 0, 2, 1, "", "", "", "", 0, 0, 65535⟩ : trectangle).h_ ∧
      ((⟨2147483647, 0, 2, 1, "", "", "", "", 0, 0, 65535⟩ : trectangle).draw null_platform
        (SDL_CreateRGBSurface 10 10) []).2.pixels = [] ∧
      in_inner_box 2147483647 0 2 1 0 2147483647 0 := by
  decide

/-- C19 (amended). For every rectangle with a fill colour, border thickness t
and evaluated x, y, w, h with 2t ≤ w, 2t ≤ h and x + w, y + h below 2^31, the
draw writes the pixels of the border loop and then those of the fill loop;
the fill pixels, all in the fill colour, are exactly those of the inner box
[x+t, x+w-t) x [y+t, y+h-t); no pixel is written by both loops, together
they write exactly the box [x, x+w) x [y, y+h), and the fill loop writes
nothing when w = 2t or h = 2t. -/
theorem rectangle_fill_inner_box (E : platform) (r : trectangle) (canvas : surface)
    (vars : map_formula_callable) (hfill : r.fill_colour_ ≠ 0)
    (hw : 2 * r.border_thickness_ ≤ (r.evaluate E vars).w_)
    (hh : 2 * r.border_thickness_ ≤ (r.evaluate E vars).h_)
    (hx : (r.evaluate E vars).x_ + (r.evaluate E vars).w_ < 2147483648)
    (hy : (r.evaluate E vars).y_ + (r.evaluate E vars).h_ < 2147483648) :
    ∃ border fill : List pixel_write,
      border_loop r.border_colour_ (r.evaluate E vars).x_ (r.evaluate E vars).y_
          (r.evaluate E vars).w_ (r.evaluate E vars).h_ r.border_thickness_ 0 canvas =
        { canvas with pixels := border ++ canvas.pixels } ∧
      (r.draw E canvas vars).2 = { canvas with pixels := fill ++ (border ++ canvas.pixels) } ∧
      (∀ p ∈ fill, p.colour = map_colour r.fill_colour_ ∧
        p.offset = pixel_offset canvas.w p.x p.y) ∧
      (∀ px py : Int, written_at fill px py ↔
        in_inner_box (r.evaluate E vars).x_ (r.evaluate E vars).y_ (r.evaluate E vars).w_
          (r.evaluate E vars).h_ r.border_thickness_ px py) ∧
      (∀ px py : Int, ¬ (written_at fill px py ∧ written_at border px py)) ∧
      (∀ px py : Int, (written_at fill px py ∨ written_at border px py) ↔
        in_box (r.evaluate E vars).x_ (r.evaluate E vars).y_ (r.evaluate E vars).w_
          (r.evaluate E vars).h_ px py) ∧
      (((r.evaluate E vars).w_ = 2 * r.border_thickness_ ∨
          (r.evaluate E vars).h_ = 2 * r.border_thickness_) → fill = []) := by
  have hcalls : r.calls E vars =
      border_calls r.border_colour_ (r.evaluate E vars).x_ (r.evaluate E vars).y_
        (r.evaluate E vars).w_ (r.evaluate E vars).h_ r.border_thickness_ 0 ++
      fill_calls r.fill_colour_ (((r.evaluate E vars).x_ + r.border_thickness_) % 4294967296)
        (to_unsigned (((((r.evaluate E vars).x_ + r.border_thickness_) % 4294967296 : Nat) : Int)
          + ((r.evaluate E vars).w_ : Int) - (2 * (r.border_thickness_ : Int)) - 1))
        (to_unsigned (((((r.evaluate E vars).y_ + r.border_thickness_) % 4294967296 : Nat) : Int)
          + ((r.evaluate E vars).h_ : Int) - (2 * (r.border_thickness_ : Int)))
          - ((r.evaluate E vars).y_ + r.border_thickness_) % 4294967296)
        (((r.evaluate E vars).y_ + r.border_thickness_) % 4294967296) := by
    unfold trectangle.calls
    dsimp only
    rw [if_pos hfill]
  generalize r.evaluate E vars = e at hw hh hx hy hcalls ⊢
  have hB := fun px py => border_written_outline r.border_colour_ e.x_ e.y_ e.w_ e.h_
    r.border_thickness_ canvas.w hw hh hx hy px py
  have hR := fun px py => outline_iff_ring e.x_ e.y_ e.w_ e.h_ r.border_thickness_ hw hh px py
  have hF := fun px py => fill_written_inner_box r.fill_colour_ e.x_ e.y_ e.w_ e.h_
    r.border_thickness_ canvas.w hw hh hx hy px py
  refine ⟨((border_calls r.border_colour_ e.x_ e.y_ e.w_ e.h_ r.border_thickness_ 0).flatMap
    (call_writes canvas.w)).reverse, _, ?_, ?_, ?_, hF, ?_, ?_, ?_⟩
  · rw [border_loop_eq_run_calls, run_calls_writes]
  · rw [trectangle_draw_eq, hcalls, run_calls_writes, List.flatMap_append, List.reverse_append,
      List.append_assoc]
  · apply calls_writes_colour
    intro c hc
    rw [mem_fill_calls] at hc
    obtain ⟨k, _, rfl⟩ := hc
    rfl
  · intro px py hboth
    have h1 := (hF px py).mp hboth.1
    have h2 := (hR px py).mp ((hB px py).mp hboth.2)
    exact h2.2 h1
  · intro px py
    rw [hF, hB, hR]
    unfold in_box in_inner_box
    omega
  · intro hdeg
    rw [List.eq_nil_iff_forall_not_mem]
    intro p hp
    have h1 := (hF p.x p.y).mp ⟨p, hp, rfl, rfl⟩
    unfold in_inner_box at h1
    omega

/-- Instance of the amended C19: the sample rectangle (box of 4 by 3 at (1, 1), thickness
1) on a new surface of 10 by 10. -/
theorem rectangle_fill_inner_box_witness :
    sample_rectangle.fill_colour_ ≠ 0 ∧
    2 * sample_rectangle.border_thickness_ ≤ (sample_rectangle.evaluate null_platform []).w_ ∧
    ∃ border fill : List pixel_write,
      (sample_rectangle.draw null_platform (SDL_CreateRGBSurface 10 10) []).2 =
        { SDL_CreateRGBSurface 10 10 with
          pixels := fill ++ (border ++ (SDL_CreateRGBSurface 10 10).pixels) } ∧
      (∀ px py : Int, written_at fill px py ↔ in_inner_box 1 1 4 3 1 px py) ∧
      (∀ px py : Int, ¬ (written_at fill px py ∧ written_at border px py)) ∧
      (∀ px py : Int, (written_at fill px py ∨ written_at border px py) ↔
        in_box 1 1 4 3 px py) := by
  refine ⟨by decide, by decide, ?_⟩
  obtain ⟨border, fill, _, h2, _, h4, h5, h6, _⟩ :=
    rectangle_fill_inner_box null_platform sample_rectangle (SDL_CreateRGBSurface 10 10) []
      (by decide) (by decide) (by decide) (by decide) (by decide)
  exact ⟨border, fill, h2, h4, h5, h6⟩

/-! ## draw_line on shallow lines: the Bresenham branch -/

theorem bresenham_points_columns (incE incNE slope : Int) (n : Nat) (x y d : Int) :
    (bresenham_points incE incNE slope n x y d).map Prod.fst =
      (List.range n).map (fun k : Nat => x + (k : Int)) := by
  induction n generalizing x y d with
  | zero => rfl
  | succ n ih =>
    rw [bresenham_points, List.range_succ_eq_map]
    by_cases hd : d ≤ 0
    · simp only [hd, if_true, List.map_cons, ih, List.map_map, Nat.cast_zero, add_zero]
      congr 1
      apply List.map_congr_left
      intro k _
      simp only [Function.comp, Nat.cast_succ]
      ring
    · simp only [hd, if_false, List.map_cons, ih, List.map_map, Nat.cast_zero, add_zero]
      congr 1
      apply List.map_congr_left
      intro k _
      simp only [Function.comp, Nat.cast_succ]
      ring

theorem bresenham_points_error (dx dy s x1 y1 Δ : Int) (hs : s = 1 ∨ s = -1)
    (hΔ : Δ = s * dy) (h0 : 0 ≤ dy) (h1 : dy ≤ dx) (n : Nat) (x y d : Int)
    (hlo : 2 * dy - 2 * dx < d) (hhi : d ≤ 2 * dy)
    (hinv : d + s * (2 * dx * (y - y1) - 2 * Δ * (x - x1)) = 2 * dy - dx) :
    ∀ q ∈ bresenham_points (2 * dy) (2 * dy - 2 * dx) s n x y d,
      |2 * dx * (q.2 - y1) - 2 * Δ * (q.1 - x1)| ≤ dx := by
  induction n generalizing x y d with
  | zero => simp [bresenham_points]
  | succ n ih =>
    intro q hq
    have hhere : |2 * dx * (y - y1) - 2 * Δ * (x - x1)| ≤ dx := by
      rw [abs_le]
      rcases hs with rfl | rfl
      · constructor <;> linarith
      · constructor <;> linarith
    rw [bresenham_points] at hq
    by_cases hd : d ≤ 0
    · rw [if_pos hd, List.mem_cons] at hq
      rcases hq with rfl | hq
      · exact hhere
      · refine ih (x + 1) y (d + 2 * dy) (by linarith) (by linarith) ?_ q hq
        rcases hs with rfl | rfl
        · subst hΔ
          linarith
        · subst hΔ
          linarith
    · rw [if_neg hd, List.mem_cons] at hq
      rcases hq with rfl | hq
      · exact hhere
      · refine ih (x + 1) (y + s) (d + (2 * dy - 2 * dx)) (by linarith) (by linarith) ?_ q hq
        rcases hs with rfl | rfl
        · subst hΔ
          linarith
        · subst hΔ
          linarith

theorem bresenham_points_head (incE incNE slope : Int) (n : Nat) (x y d : Int) :
    (bresenham_points incE incNE slope (n + 1) x y d).head? = some (x, y) := by
  rw [bresenham_points]
  split_ifs <;> rfl

theorem bresenham_points_last (incE incNE slope : Int) (n : Nat) (x y d : Int) :
    ∃ yl : Int,
      (bresenham_points incE incNE slope (n + 1) x y d).getLast? = some (x + (n : Int), yl) := by
  induction n generalizing x y d with
  | zero =>
    refine ⟨y, ?_⟩
    rw [bresenham_points]
    split_ifs <;> simp [bresenham_points]
  | succ n ih =>
    rw [bresenham_points]
    by_cases hd : d ≤ 0
    · obtain ⟨yl, hyl⟩ := ih (x + 1) y (d + incE)
      refine ⟨yl, ?_⟩
      rw [if_pos hd, List.getLast?_cons, hyl]
      simp only [Option.getD_some, Nat.cast_succ]
      congr 2
      ring
    · obtain ⟨yl, hyl⟩ := ih (x + 1) (y + slope) (d + incNE)
      refine ⟨yl, ?_⟩
      rw [if_neg hd, List.getLast?_cons, hyl]
      simp only [Option.getD_some, Nat.cast_succ]
      congr 2
      ring

/-- The points of a shallow line: what `line_points` is on the Bresenham
branch, with the bound on the error of each point. -/
theorem line_points_shallow (x1 y1 x2 y2 : Int) (hx : x1 < x2) (hy : y1 ≠ y2)
    (hshallow : |y2 - y1| ≤ x2 - x1) :
    (line_points x1 y1 x2 y2).map Prod.fst =
        (List.range (x2 + 1 - x1).toNat).map (fun k : Nat => x1 + (k : Int)) ∧
      (∀ q ∈ line_points x1 y1 x2 y2,
        |2 * (x2 - x1) * (q.2 - y1) - 2 * (y2 - y1) * (q.1 - x1)| ≤ x2 - x1) ∧
      (line_points x1 y1 x2 y2).head? = some (x1, y1) ∧
      (line_points x1 y1 x2 y2).getLast? = some (x2, y2) := by
  have hne : ¬ x1 = x2 := by omega
  obtain ⟨m, hm⟩ : ∃ m : Nat, (x2 + 1 - x1).toNat = m + 1 ∧ (m : Int) = x2 - x1 :=
    ⟨(x2 - x1).toNat, by omega, by omega⟩
  have hbound : ∀ q ∈ line_points x1 y1 x2 y2,
      |2 * (x2 - x1) * (q.2 - y1) - 2 * (y2 - y1) * (q.1 - x1)| ≤ x2 - x1 := by
    unfold line_points
    rw [if_neg hne, if_neg hy]
    dsimp only
    by_cases hneg : y2 - y1 < 0
    · rw [if_pos hneg, if_pos hneg]
      have habs : |y2 - y1| = -(y2 - y1) := abs_of_neg hneg
      exact bresenham_points_error (x2 - x1) (-(y2 - y1)) (-1) x1 y1 (y2 - y1) (Or.inr rfl)
        (by ring) (by omega) (by omega) _ x1 y1 _ (by omega) (by omega) (by ring)
    · rw [if_neg hneg, if_neg hneg]
      have habs : |y2 - y1| = y2 - y1 := abs_of_nonneg (by omega)
      exact bresenham_points_error (x2 - x1) (y2 - y1) 1 x1 y1 (y2 - y1) (Or.inl rfl)
        (by ring) (by omega) (by omega) _ x1 y1 _ (by omega) (by omega) (by ring)
  have hcols : (line_points x1 y1 x2 y2).map Prod.fst =
      (List.range (x2 + 1 - x1).toNat).map (fun k : Nat => x1 + (k : Int)) := by
    unfold line_points
    rw [if_neg hne, if_neg hy]
    exact bresenham_points_columns _ _ _ _ _ _ _
  have hhead : (line_points x1 y1 x2 y2).head? = some (x1, y1) := by
    unfold line_points
    rw [if_neg hne, if_neg hy]
    dsimp only
    rw [hm.1]
    exact bresenham_points_head _ _ _ _ _ _ _
  have hlast : (line_points x1 y1 x2 y2).getLast? = some (x2, y2) := by
    have hl : ∃ yl : Int, (line_points x1 y1 x2 y2).getLast? = some (x2, yl) := by
      unfold line_points
      rw [if_neg hne, if_neg hy]
      dsimp only
      rw [hm.1]
      obtain ⟨yl, hyl⟩ := bresenham_points_last
        (2 * (if y2 - y1 < 0 then -(y2 - y1) else y2 - y1))
        (2 * (if y2 - y1 < 0 then -(y2 - y1) else y2 - y1) - 2 * (x2 - x1))
        (if y2 - y1 < 0 then -1 else 1) m x1 y1
        (2 * (if y2 - y1 < 0 then -(y2 - y1) else y2 - y1) - (x2 - x1))
      exact ⟨yl, by rw [hyl, show x1 + (m : Int) = x2 by omega]⟩
    obtain ⟨yl, hyl⟩ := hl
    have hmem : (x2, yl) ∈ line_points x1 y1 x2 y2 := List.mem_of_getLast?_eq_some hyl
    have hb := hbound (x2, yl) hmem
    dsimp only at hb
    have hyl2 : yl = y2 := by
      have hrw : 2 * (x2 - x1) * (yl - y1) - 2 * (y2 - y1) * (x2 - x1)
          = 2 * ((x2 - x1) * (yl - y2)) := by ring
      rw [hrw, abs_le] at hb
      by_contra hcon
      rcases lt_or_gt_of_ne hcon with hlt | hgt
      · have : (x2 - x1) * (yl - y2) ≤ (x2 - x1) * (-1) :=
          mul_le_mul_of_nonneg_left (by omega) (by omega)
        omega
      · have : (x2 - x1) * 1 ≤ (x2 - x1) * (yl - y2) :=
          mul_le_mul_of_nonneg_left (by omega) (by omega)
        omega
    rw [hyl, hyl2]
  exact ⟨hcols, hbound, hhead, hlast⟩

/-- C21. For all integers x1 < x2 and y1 ≠ y2 with |y2 - y1| ≤ x2 - x1,
draw_line (on its Bresenham branch) writes one pixel per column, the columns
in the order x1, x1 + 1, ..., x2; every pixel (x, y) written satisfies
|2 (x2 - x1) (y - y1) - 2 (y2 - y1) (x - x1)| ≤ x2 - x1; the first pixel
written is (x1, y1) and the last is (x2, y2). -/
theorem draw_line_bresenham (canvas : surface) (colour : Nat) (x1 y1 x2 y2 : Int)
    (hx : x1 < x2) (hy : y1 ≠ y2) (hshallow : |y2 - y1| ≤ x2 - x1) :
    ∃ written : List pixel_write,
      draw_line canvas colour x1 y1 x2 y2 = { canvas with pixels := written ++ canvas.pixels } ∧
      written.reverse.map (fun p => p.x) =
        (List.range (x2 + 1 - x1).toNat).map (fun k : Nat => x1 + (k : Int)) ∧
      (∀ p ∈ written, p.colour = map_colour colour ∧
        p.offset = pixel_offset canvas.w p.x p.y) ∧
      (∀ p ∈ written,
        |2 * (x2 - x1) * (p.y - y1) - 2 * (y2 - y1) * (p.x - x1)| ≤ x2 - x1) ∧
      written.reverse.head?.map (fun p => (p.x, p.y)) = some (x1, y1) ∧
      written.head?.map (fun p => (p.x, p.y)) = some (x2, y2) := by
  obtain ⟨hcols, hbound, hhead, hlast⟩ := line_points_shallow x1 y1 x2 y2 hx hy hshallow
  refine ⟨(call_writes canvas.w ⟨colour, x1, y1, x2, y2⟩).reverse,
    draw_line_writes canvas colour x1 y1 x2 y2, ?_, ?_, ?_, ?_, ?_⟩
  · rw [List.reverse_reverse, ← hcols]
    simp [call_writes, List.map_map, Function.comp]
  · intro p hp
    simp only [List.mem_reverse, call_writes, List.mem_map] at hp
    obtain ⟨q, _, rfl⟩ := hp
    exact ⟨rfl, rfl⟩
  · intro p hp
    simp only [List.mem_reverse, call_writes, List.mem_map] at hp
    obtain ⟨q, hq, rfl⟩ := hp
    exact hbound q hq
  · rw [List.reverse_reverse]
    simp only [call_writes, List.head?_map, hhead, Option.map_some']
  · rw [List.head?_reverse]
    simp only [call_writes, List.getLast?_map, hlast, Option.map_some']

/-- Instance of C21: the line from (0, 3) to (4, 0) on a new surface of 10 by
10, which passes through (2, 2) with the largest error allowed. -/
theorem draw_line_bresenham_witness :
    (0 : Int) < 4 ∧ (3 : Int) ≠ 0 ∧ |(0 : Int) - 3| ≤ 4 - 0 ∧
    (draw_line (SDL_CreateRGBSurface 10 10) 4278190335 0 3 4 0).pixels.map
        (fun p => (p.x, p.y)) = [(4, 0), (3, 1), (2, 2), (1, 2), (0, 3)] ∧
    ∃ written : List pixel_write,
      draw_line (SDL_CreateRGBSurface 10 10) 4278190335 0 3 4 0 =
        { SDL_CreateRGBSurface 10 10 with
          pixels := written ++ (SDL_CreateRGBSurface 10 10).pixels } ∧
      written.reverse.map (fun p => p.x) =
        (List.range ((4 : Int) + 1 - 0).toNat).map (fun k : Nat => (0 : Int) + (k : Int)) ∧
      (∀ p ∈ written, p.colour = map_colour 4278190335 ∧
        p.offset = pixel_offset (SDL_CreateRGBSurface 10 10).w p.x p.y) ∧
      (∀ p ∈ written,
        |2 * ((4 : Int) - 0) * (p.y - 3) - 2 * ((0 : Int) - 3) * (p.x - 0)| ≤ 4 - 0) ∧
      written.reverse.head?.map (fun p => (p.x, p.y)) = some (0, 3) ∧
      written.head?.map (fun p => (p.x, p.y)) = some (4, 0) :=
  ⟨by decide, by decide, by decide, by decide,
    draw_line_bresenham (SDL_CreateRGBSurface 10 10) 4278190335 0 3 4 0
      (by decide) (by decide) (by decide)⟩

end canvas
